import Mathlib

/-!
# Verification of the dfim coordinate-mapping utilities

Shallow embedding of `dfim/util.py`: the one-hot sequence encoder, the
prediction-correctness filter, the synthetic-label decoder
(`process_locations_from_simdata`), and the two interval-padding mappers
(`process_seqs_and_locations_from_bed`,
`process_seqs_and_locations_from_bed_and_labels`).

Conventions of the embedding:
* Python integers are `Int`; machine floats never occur except as the exact
  half `(seq_len - size) / 2.0`, which is exact in binary floating point, so
  `np.floor`, `np.ceil` and `int()` of it are modelled by exact integer
  floor / ceiling / truncation of `(seq_len - size) / 2`.
* Python strings are `String` / `List Char`; `str.split`, `str.replace` and
  `int(...)` are modelled by executable functions below (`pySplit`,
  `pySplitOnce`, `pyReplaceEmpty`, `pyInt`).
* A raised Python exception is `Option.none` / `Except.error`; list indexing
  that can raise `IndexError` goes through `List.getElem?`.
* A Python dict (insertion ordered, later assignment to an existing key
  overwrites in place) is an association list built with `dictInsert`.
-/

namespace Dfim

/-! ## Exact halves

`seq_flank_size = (seq_len - size) / 2.` in the source is an exact binary
float; the source then applies `np.ceil`, `np.floor` or `int()` (truncation
toward zero).  `Int` division `/` here is floor division (the divisor `2` is
positive). -/

/-- `np.floor` of the exact half of `p`. -/
def floorHalf (p : Int) : Int := p / 2

/-- `np.ceil` of the exact half of `p`. -/
def ceilHalf (p : Int) : Int := (p + 1) / 2

/-- Python `int(...)` (truncation toward zero) of the exact half of `p`. -/
def truncHalf (p : Int) : Int := if 0 ≤ p then floorHalf p else ceilHalf p

/-! ## Data model -/

/-- One entry of the `seqlet_loc_dict` dictionaries built by the three
producers in `util.py`. -/
structure LocationRecord where
  seq : Nat
  mut_start : Int
  mut_end : Int
  mut_name : String
  resp_start : List Int
  resp_end : List Int
  resp_names : List String
deriving Repr, DecidableEq

/-- Python dict with `String` keys, in insertion order. -/
abbrev Dict := List (String × LocationRecord)

/-- `d[k] = v`: overwrite in place when the key exists, append otherwise. -/
def dictInsert (k : String) (v : LocationRecord) : Dict → Dict
  | [] => [(k, v)]
  | (k1, v1) :: rest => if k1 = k then (k, v) :: rest else (k1, v1) :: dictInsert k v rest

/-- `d.get(k)`. -/
def dictLookup (k : String) : Dict → Option LocationRecord
  | [] => none
  | (k1, v1) :: rest => if k1 = k then some v1 else dictLookup k rest

/-- The keys of a dict, in order. -/
def dictKeys (d : Dict) : List String := d.map Prod.fst

/-! ## `one_hot_encode` (util.py lines 17-38)

The source fills a `len(sequence) × 4` zero matrix row by row: `A/a` sets
column 0, `C/c` column 1, `G/g` column 2, `T/t` column 3, `N/n` leaves the
row zero, and any other character raises
`RuntimeError("Unsupported character: " + str(char))`. -/

/-- The per-character branch of the loop: the selected column (`none` for the
`N/n` `continue` branch), or the raising character. -/
def charCol (c : Char) : Except Char (Option Nat) :=
  if c = 'A' ∨ c = 'a' then Except.ok (some 0)
  else if c = 'C' ∨ c = 'c' then Except.ok (some 1)
  else if c = 'G' ∨ c = 'g' then Except.ok (some 2)
  else if c = 'T' ∨ c = 't' then Except.ok (some 3)
  else if c = 'N' ∨ c = 'n' then Except.ok none
  else Except.error c

/-- A row of the result matrix: all zero, or with a single 1 at the selected
column. -/
def oneHotRow : Option Nat → List Nat
  | none => [0, 0, 0, 0]
  | some k => List.set [0, 0, 0, 0] k 1

deriving instance DecidableEq for Except

def one_hot_encode (sequence : String) : Except String (List (List Nat)) :=
  match sequence.data.mapM charCol with
  | Except.ok cols => Except.ok (cols.map oneHotRow)
  | Except.error c => Except.error ("Unsupported character: " ++ toString c)

/-! ## `get_correct_predictions` (util.py lines 64-81)

The loop runs `i` over `range(len(true_labels))`, appends `i` when
`true_labels[i] == 1 and predicted_labels[i] > pos_threshold`, and, when a
`neg_threshold` is supplied, also appends `i` when `true_labels[i] == 0 and
predicted_labels[i] < neg_threshold`.  Predicted scores are modelled as `ℚ`.
The accumulated list is the concatenation of the per-`i` appended blocks. -/

/-- The second conditional append of the loop body, active only when a
`neg_threshold` is supplied. -/
def gcp_negBlock (t : Int) (p : ℚ) (neg_threshold : Option ℚ) (i : Nat) : List Nat :=
  match neg_threshold with
  | some nt => if t = 0 ∧ p < nt then [i] else []
  | none => []

def gcp_step (true_labels : List Int) (predicted_labels : List ℚ)
    (pos_threshold : ℚ) (neg_threshold : Option ℚ) (i : Nat) : Option (List Nat) := do
  let t ← true_labels[i]?
  let p ← predicted_labels[i]?
  pure ((if t = 1 ∧ pos_threshold < p then [i] else []) ++
    gcp_negBlock t p neg_threshold i)

def get_correct_predictions (true_labels : List Int) (predicted_labels : List ℚ)
    (pos_threshold : ℚ) (neg_threshold : Option ℚ) : Option (List Nat) :=
  ((List.range true_labels.length).mapM
    (gcp_step true_labels predicted_labels pos_threshold neg_threshold)).map List.flatten

/-! ## Python string primitives used by the decoder -/

/-- `str.split(sep)` (single character separator, no maxsplit):
accumulator-based scan; `"".split(c) = [""]`. -/
def pySplitAux (c : Char) : List Char → List Char → List (List Char)
  | acc, [] => [acc.reverse]
  | acc, x :: xs =>
    if x = c then acc.reverse :: pySplitAux c [] xs else pySplitAux c (x :: acc) xs

def pySplit (c : Char) (s : List Char) : List (List Char) := pySplitAux c [] s

/-- `str.split(sep, 1)`: at most one split, at the first separator. -/
def pySplitOnceAux (c : Char) : List Char → List Char → List (List Char)
  | acc, [] => [acc.reverse]
  | acc, x :: xs =>
    if x = c then [acc.reverse, xs] else pySplitOnceAux c (x :: acc) xs

def pySplitOnce (c : Char) (s : List Char) : List (List Char) := pySplitOnceAux c [] s

/-- Whether `pat` is an initial segment of `s`. -/
def startsWith : List Char → List Char → Bool
  | [], _ => true
  | _ :: _, [] => false
  | p :: ps, x :: xs => p = x && startsWith ps xs

/-- Scan of `str.replace(pat, '')` with explicit fuel (the fuel only serves
structural recursion; it is initialised to the string length, which the scan
never exhausts, since every step consumes at least one character). -/
def pyReplaceAux (pat : List Char) : Nat → List Char → List Char
  | _, [] => []
  | 0, s => s
  | Nat.succ fuel, x :: xs =>
    if pat ≠ [] ∧ startsWith pat (x :: xs) = true
    then pyReplaceAux pat fuel (List.drop (pat.length - 1) xs)
    else x :: pyReplaceAux pat fuel xs

/-- `str.replace(pat, '')` for a nonempty `pat`: remove the leftmost
occurrences of `pat`, scanning left to right without overlap. -/
def pyReplaceEmpty (pat : List Char) (s : List Char) : List Char :=
  pyReplaceAux pat s.length s

/-- Decimal digit value. -/
def digitVal (c : Char) : Option Nat :=
  if c.isDigit then some (c.toNat - 48) else none

def parseDigitsAux (acc : Nat) : List Char → Option Nat
  | [] => some acc
  | c :: cs => match digitVal c with
    | some d => parseDigitsAux (acc * 10 + d) cs
    | none => none

/-- The decimal value of a digit string. -/
def digitsVal (ds : List Char) : Nat :=
  ds.foldl (fun a c => a * 10 + (c.toNat - 48)) 0

/-- Python `int(...)` on the strings arising here: an optional leading `-`
followed by decimal digits; anything else raises `ValueError` (`none`).
(Leading `+`, whitespace and underscores, which Python also accepts, never
occur in this program's inputs and are not modelled.) -/
def pyInt (s : List Char) : Option Int :=
  if s = [] then none
  else if s.headD ' ' = '-' then
    if s.tail = [] then none
    else (parseDigitsAux 0 s.tail).map (fun n => -(n : Int))
  else (parseDigitsAux 0 s).map (fun n => (n : Int))

/-! ## `process_locations_from_simdata` (util.py lines 83-131)

Per placement token `emb` of a row (the row's `embeddings` field split on
`,`), the source computes

* `pos_start = int(emb.split('_',1)[0].replace('pos-', ''))`
* `pos_end = pos_start + len(emb.split('-')[-1])`
* `motif = emb.split('_',1)[1].split('-')[0]`, `mut_name = motif.split('_')[0]`
* `seq_embed = emb.split('_',1)[1].split('-')[1]` (computed, unused)
* response data from every token `e` of the row with `e != emb`:
  `int(e.split('-')[1].split('_')[0])`, `len(e.split('-')[-1])`,
  `e.split('-')[1].split('_')[1]`

and stores the record under `'seq_%s_emb_%s' % (seq_ind, emb)`. -/

def embPosStart (emb : List Char) : Option Int := do
  let head0 ← (pySplitOnce '_' emb)[0]?
  pyInt (pyReplaceEmpty "pos-".data head0)

def embPosEnd (emb : List Char) (pos_start : Int) : Int :=
  pos_start + (((pySplit '-' emb).getLastD []).length : Int)

def embMotif (emb : List Char) : Option (List Char) := do
  let tail0 ← (pySplitOnce '_' emb)[1]?
  (pySplit '-' tail0)[0]?

def embSeqEmbed (emb : List Char) : Option (List Char) := do
  let tail0 ← (pySplitOnce '_' emb)[1]?
  (pySplit '-' tail0)[1]?

def respStartOf (e : List Char) : Option Int := do
  let p ← (pySplit '-' e)[1]?
  pyInt ((pySplit '_' p).headD [])

def respLengthOf (e : List Char) : Nat :=
  ((pySplit '-' e).getLastD []).length

def respNameOf (e : List Char) : Option (List Char) := do
  let p ← (pySplit '-' e)[1]?
  (pySplit '_' p)[1]?

/-- The dictionary key `'seq_%s_emb_%s' % (seq_ind, emb)`. -/
def tokKey (seq_ind : Nat) (emb : List Char) : String :=
  "seq_" ++ Nat.repr seq_ind ++ "_emb_" ++ String.mk emb

/-- One iteration of the inner `for emb in embeddings` loop: the key and the
record stored for token `emb`, or `none` when the Python code raises. -/
def decodeToken (seq_ind : Nat) (embeddings : List (List Char)) (emb : List Char) :
    Option (String × LocationRecord) := do
  let pos_start ← embPosStart emb
  let motif ← embMotif emb
  let _seq_embed ← embSeqEmbed emb
  let others := embeddings.filter (fun e => e ≠ emb)
  let resp_starts ← others.mapM respStartOf
  let resp_lengths := others.map respLengthOf
  let resp_ends := List.zipWith (fun (a : Int) (b : Nat) => a + (b : Int)) resp_starts resp_lengths
  let resp_names ← others.mapM respNameOf
  pure (tokKey seq_ind emb,
    { seq := seq_ind
      mut_start := pos_start
      mut_end := embPosEnd emb pos_start
      mut_name := String.mk ((pySplit '_' motif).headD [])
      resp_start := resp_starts
      resp_end := resp_ends
      resp_names := resp_names.map String.mk })

/-- One iteration of the outer row loop: a null `embeddings` field is skipped
(with a printed notice), otherwise the field is split on `,` and every token
contributes one dict entry. -/
def decodeRow (seq_ind : Nat) (field : Option String) (d : Dict) : Option Dict :=
  match field with
  | none => some d
  | some s =>
    let embeddings := pySplit ',' s.data
    embeddings.foldlM
      (fun d1 emb => (decodeToken seq_ind embeddings emb).map
        (fun kv => dictInsert kv.1 kv.2 d1)) d

/-- `process_locations_from_simdata`: `numSeqs` is `sequences.shape[0]`,
`rows` the `embeddings` column of the simdata table (`none` = null cell).
The `assert simdata_df.shape[0] == sequences.shape[0]` is the `none` case. -/
def process_locations_from_simdata (numSeqs : Nat) (rows : List (Option String)) :
    Option Dict :=
  if rows.length = numSeqs then
    rows.enum.foldlM (fun d p => decodeRow p.1 p.2 d) ([] : Dict)
  else none

/-! ## `process_seqs_and_locations_from_bed` (util.py lines 177-232)

Per bed row `(chrom, start, end)` the source computes
`mut_size = end - start`, `seq_flank_size = (seq_len - mut_size) / 2.`, then

* if `mut_size % 2 != 0`: `pre = int(np.ceil(seq_flank_size))`,
  `post = int(np.floor(seq_flank_size))`
* else `pre = post = int(seq_flank_size)`

appends the padded coordinates `[chrom, start - pre, end + post]`, and stores
under `'seq_%s' % bed_ind` the record with `mut_start = pre`,
`mut_end = pre + mut_size`, `mut_name = '%s:%s-%s' % (chrom, start, end)`,
`resp_start = [pre - flank_size]`, `resp_end = [pre + mut_size + flank_size]`,
`resp_names = ['flank_%s' % flank_size]`.  (The genome slicing of the padded
coordinates is delegated to `load_sequences_from_bed` and not modelled.) -/

/-- The pre flank, as computed by the identical padding blocks of both bed
mappers (keyed on the parity of the feature size). -/
def pre_mut_flank (seq_len size : Int) : Int :=
  if size % 2 ≠ 0 then ceilHalf (seq_len - size) else truncHalf (seq_len - size)

/-- The post flank of the same padding blocks. -/
def post_mut_flank (seq_len size : Int) : Int :=
  if size % 2 ≠ 0 then floorHalf (seq_len - size) else truncHalf (seq_len - size)

/-- One iteration of the bed-row loop: the appended `seq_coords` entry and the
stored dict entry. -/
def processBedRow (seq_len flank_size : Int) (bed_ind : Nat)
    (chrom : String) (start «end» : Int) :
    (String × Int × Int) × (String × LocationRecord) :=
  let mut_size := «end» - start
  let pre := pre_mut_flank seq_len mut_size
  let post := post_mut_flank seq_len mut_size
  ((chrom, start - pre, «end» + post),
   ("seq_" ++ Nat.repr bed_ind,
    { seq := bed_ind
      mut_start := pre
      mut_end := pre + mut_size
      mut_name := chrom ++ ":" ++ toString start ++ "-" ++ toString «end»
      resp_start := [pre - flank_size]
      resp_end := [pre + mut_size + flank_size]
      resp_names := ["flank_" ++ toString flank_size] }))

def process_seqs_and_locations_from_bed (seq_len flank_size : Int)
    (bed_rows : List (String × Int × Int)) :
    List (String × Int × Int) × Dict :=
  bed_rows.enum.foldl
    (fun acc p =>
      let r := processBedRow seq_len flank_size p.1 p.2.1 p.2.2.1 p.2.2.2
      (acc.1 ++ [r.1], dictInsert r.2.1 r.2.2 acc.2))
    ([], [])

/-! ## `process_seqs_and_locations_from_bed_and_labels` (util.py lines 235-306)

The source joins `labels_bedtool.intersect(bed_bedtool, wa=True, wb=True)`:
each output row is the full labels-table (A) row followed by the full
bed-table (B) row.  Per joined row it reads `chrom`, `start`, `end` from
columns 0-2 (the labels row's interval), `peak_size = end - start`, and the
"feature" coordinates from columns `len(labels_df.columns) + 1` and
`len(labels_df.columns) + 2` (the bed row's `start` and `end`); the padding
block is identical to the bed-only mapper, keyed on `peak_size`, and

* `feature_start = mut_start - start + pre_mut_flank`
* `feature_end = mut_end - start + post_mut_flank`

become the record's `mut_start` / `mut_end`. -/

/-- A cell of a joined table row. -/
inductive Cell where
  | str : String → Cell
  | int : Int → Cell
deriving Repr, DecidableEq

def Cell.asStr : Cell → Option String
  | Cell.str s => some s
  | Cell.int _ => none

def Cell.asInt : Cell → Option Int
  | Cell.int i => some i
  | Cell.str _ => none

/-- One iteration of the joined-row loop.  `labels_ncols` is
`len(labels_df.columns)`. -/
def processIntersectRow (seq_len flank_size : Int) (labels_ncols : Nat) (bed_ind : Nat)
    (row : List Cell) :
    Option ((String × Int × Int) × (String × LocationRecord)) := do
  let chrom ← (row[0]?).bind Cell.asStr
  let start ← (row[1]?).bind Cell.asInt
  let «end» ← (row[2]?).bind Cell.asInt
  let peak_size := «end» - start
  let mut_start0 ← (row[labels_ncols + 1]?).bind Cell.asInt
  let mut_end0 ← (row[labels_ncols + 2]?).bind Cell.asInt
  let pre := pre_mut_flank seq_len peak_size
  let post := post_mut_flank seq_len peak_size
  let feature_start := mut_start0 - start + pre
  let feature_end := mut_end0 - start + post
  pure ((chrom, start - pre, «end» + post),
    ("seq_" ++ Nat.repr bed_ind,
     { seq := bed_ind
       mut_start := feature_start
       mut_end := feature_end
       mut_name := chrom ++ ":" ++ toString start ++ "-" ++ toString «end»
       resp_start := [feature_start - flank_size]
       resp_end := [feature_end + flank_size]
       resp_names := ["flank_" ++ toString flank_size] }))

/-- The first three cells of a table row as a genomic interval. -/
def rowInterval (row : List Cell) : Option (String × Int × Int) := do
  let c ← (row[0]?).bind Cell.asStr
  let s ← (row[1]?).bind Cell.asInt
  let e ← (row[2]?).bind Cell.asInt
  pure (c, s, e)

/-- Half-open interval overlap on the same chromosome. -/
def intervalsOverlap (a b : String × Int × Int) : Bool :=
  a.1 = b.1 && a.2.1 < b.2.2 && b.2.1 < a.2.2

/-- Modelled from the library call
`labels_bedtool.intersect(bed_bedtool, wa=True, wb=True)` (pybedtools, an
external collaborator): for every overlapping (A = labels row, B = bed row)
pair, in A-major order, one joined row holding A's cells followed by B's
cells. -/
def overlapJoin (aRows bRows : List (List Cell)) : Option (List (List Cell)) := do
  let pairs ← aRows.mapM (fun a => do
    let ia ← rowInterval a
    let hits ← bRows.mapM (fun b => do
      let ib ← rowInterval b
      pure (if intervalsOverlap ia ib then [a ++ b] else []))
    pure hits.flatten)
  pure pairs.flatten

def process_seqs_and_locations_from_bed_and_labels (seq_len flank_size : Int)
    (bed_rows labels_rows : List (List Cell)) :
    Option (List (String × Int × Int) × Dict) := do
  let labels_ncols := (labels_rows.headD []).length
  let intersect_rows ← overlapJoin labels_rows bed_rows
  intersect_rows.enum.foldlM
    (fun acc p => do
      let r ← processIntersectRow seq_len flank_size labels_ncols p.1 p.2
      pure (acc.1 ++ [r.1], dictInsert r.2.1 r.2.2 acc.2))
    (([], []) : List (String × Int × Int) × Dict)

/-! ## Vocabulary used by the theorems -/

/-- The characters `one_hot_encode` accepts without raising. -/
def supportedChars : List Char := ['A', 'a', 'C', 'c', 'G', 'g', 'T', 't', 'N', 'n']

/-- The block of indices appended for position `i` by one iteration of the
`get_correct_predictions` loop (total form, for indices inside both lists). -/
def gcp_block (true_labels : List Int) (predicted_labels : List ℚ)
    (pos_threshold : ℚ) (neg_threshold : Option ℚ) (i : Nat) : List Nat :=
  (if true_labels.getD i 0 = 1 ∧ pos_threshold < predicted_labels.getD i 0
   then [i] else []) ++
  gcp_negBlock (true_labels.getD i 0) (predicted_labels.getD i 0) neg_threshold i

/-- The rendered token `pos-<ds>_<nm>-<label>`. -/
def mkTok (ds nm label : List Char) : List Char :=
  "pos-".data ++ ds ++ '_' :: (nm ++ '-' :: label)

/-- Well-formedness of the parts of a placement token: a nonempty decimal
position, and a motif name and label free of the delimiter characters the
decoder splits on. -/
def WfTok (ds nm label : List Char) : Prop :=
  ds ≠ [] ∧ (∀ c ∈ ds, c.isDigit = true) ∧
  '-' ∉ nm ∧ '_' ∉ nm ∧ ',' ∉ nm ∧ '-' ∉ label ∧ ',' ∉ label

instance (ds nm label : List Char) : Decidable (WfTok ds nm label) := by
  unfold WfTok
  infer_instance

/-- The three parts of a placement token. -/
structure TokParts where
  ds : List Char
  nm : List Char
  label : List Char
deriving Repr, DecidableEq

def TokParts.tok (t : TokParts) : List Char := mkTok t.ds t.nm t.label

def TokParts.wf (t : TokParts) : Prop := WfTok t.ds t.nm t.label

instance (t : TokParts) : Decidable t.wf := by
  unfold TokParts.wf
  infer_instance

/-- The record the decoder stores for token `t` when the sibling tokens are
`others` (in row order). -/
def tokRecord (seq_ind : Nat) (others : List TokParts) (t : TokParts) : LocationRecord :=
  { seq := seq_ind
    mut_start := ((digitsVal t.ds : Nat) : Int)
    mut_end := ((digitsVal t.ds : Nat) : Int) + t.label.length
    mut_name := String.mk t.nm
    resp_start := others.map (fun u => ((digitsVal u.ds : Nat) : Int))
    resp_end := others.map (fun u => ((digitsVal u.ds : Nat) : Int) + u.label.length)
    resp_names := others.map (fun u => String.mk u.nm) }

/-! ## Arithmetic of the padding split -/

/-- Behaviour of the shared padding block when the pad is nonnegative: the
ceiling/floor split happens only when the feature size `m` is odd; for even
`m` both flanks truncate, and an odd pad then loses one base. -/
theorem flank_arith (L m : Int) (h : 0 ≤ L - m) :
    (m % 2 ≠ 0 →
      pre_mut_flank L m = ceilHalf (L - m) ∧ post_mut_flank L m = floorHalf (L - m) ∧
      pre_mut_flank L m + m + post_mut_flank L m = L) ∧
    (m % 2 = 0 →
      pre_mut_flank L m = post_mut_flank L m ∧ post_mut_flank L m = floorHalf (L - m) ∧
      pre_mut_flank L m + m + post_mut_flank L m = L - (L - m) % 2) ∧
    (pre_mut_flank L m + m + post_mut_flank L m = L ↔ m % 2 ≠ 0 ∨ (L - m) % 2 = 0) := by
  simp only [pre_mut_flank, post_mut_flank, truncHalf, ceilHalf, floorHalf]
  split_ifs <;> omega

/-- Behaviour of the shared padding block when the pad is negative:
`int()` truncation now rounds up, so for even `m` both flanks take the
ceiling. -/
theorem flank_arith_neg (L m : Int) (h : L - m < 0) :
    (m % 2 ≠ 0 →
      pre_mut_flank L m = ceilHalf (L - m) ∧ post_mut_flank L m = floorHalf (L - m) ∧
      pre_mut_flank L m + m + post_mut_flank L m = L) ∧
    (m % 2 = 0 →
      pre_mut_flank L m = post_mut_flank L m ∧ post_mut_flank L m = ceilHalf (L - m) ∧
      pre_mut_flank L m + m + post_mut_flank L m = L + (L - m) % 2) := by
  simp only [pre_mut_flank, post_mut_flank, truncHalf, ceilHalf, floorHalf]
  split_ifs <;> omega

/-! ## Claim C1: padding split of the flank-only mapper -/

/-- C1 (amended).  For every interval of size `m = end - start` with
`m ≤ window_length` processed by `process_seqs_and_locations_from_bed`, the
padded extraction interval is `[start - pre, end + post)`, `mut_start = pre`,
`mut_end = pre + m` (so `mut_end - mut_start = m`), but the split of the pad
`window_length - m` is keyed on the parity of `m`, not of the pad: when `m`
is odd the pre flank takes the ceiling and the post flank the floor of half
the pad (and `pre + m + post = window_length`); when `m` is even both flanks
take the floor of half the pad, so `pre + m + post = window_length` holds iff
the pad is even, and falls short by one (`window_length - 1`) when `m` is
even and the pad odd. -/
theorem bed_flank_padding (seq_len flank_size : Int) (bed_ind : Nat)
    (chrom : String) (start «end» : Int)
    (hm : «end» - start ≤ seq_len) :
    ∃ pre post : Int,
      processBedRow seq_len flank_size bed_ind chrom start «end» =
        ((chrom, start - pre, «end» + post),
         ("seq_" ++ Nat.repr bed_ind,
          { seq := bed_ind
            mut_start := pre
            mut_end := pre + («end» - start)
            mut_name := chrom ++ ":" ++ toString start ++ "-" ++ toString «end»
            resp_start := [pre - flank_size]
            resp_end := [pre + («end» - start) + flank_size]
            resp_names := ["flank_" ++ toString flank_size] })) ∧
      ((«end» - start) % 2 ≠ 0 →
        pre = ceilHalf (seq_len - («end» - start)) ∧
        post = floorHalf (seq_len - («end» - start)) ∧
        pre + («end» - start) + post = seq_len) ∧
      ((«end» - start) % 2 = 0 →
        pre = post ∧ post = floorHalf (seq_len - («end» - start)) ∧
        pre + («end» - start) + post = seq_len - (seq_len - («end» - start)) % 2) ∧
      (pre + («end» - start) + post = seq_len ↔
        («end» - start) % 2 ≠ 0 ∨ (seq_len - («end» - start)) % 2 = 0) := by
  refine ⟨pre_mut_flank seq_len («end» - start), post_mut_flank seq_len («end» - start),
    rfl, ?_⟩
  exact flank_arith seq_len («end» - start) (by omega)

/-- Witness for C1 at the even-size instance of spec scenario D:
interval `(100, 110)`, `window_length = 20`, `flank_size = 3`. -/
theorem bed_flank_padding_witness :
    ∃ pre post : Int,
      processBedRow 20 3 0 "chr1" 100 110 =
        (("chr1", 100 - pre, 110 + post),
         ("seq_" ++ Nat.repr 0,
          { seq := 0
            mut_start := pre
            mut_end := pre + (110 - 100)
            mut_name := "chr1" ++ ":" ++ toString (100 : Int) ++ "-" ++ toString (110 : Int)
            resp_start := [pre - 3]
            resp_end := [pre + (110 - 100) + 3]
            resp_names := ["flank_" ++ toString (3 : Int)] })) ∧
      (((110 : Int) - 100) % 2 ≠ 0 →
        pre = ceilHalf (20 - (110 - 100)) ∧
        post = floorHalf (20 - (110 - 100)) ∧
        pre + (110 - 100) + post = 20) ∧
      (((110 : Int) - 100) % 2 = 0 →
        pre = post ∧ post = floorHalf (20 - (110 - 100)) ∧
        pre + (110 - 100) + post = 20 - (20 - (110 - 100)) % 2) ∧
      (pre + (110 - 100) + post = 20 ↔
        ((110 : Int) - 100) % 2 ≠ 0 ∨ ((20 : Int) - (110 - 100)) % 2 = 0) :=
  bed_flank_padding 20 3 0 "chr1" 100 110 (by decide)

/-- Counterexample to C1 as stated: `window_length = 21`, interval
`(0, 10)` of even size `10 ≤ 21` with odd pad `11`.  The claim demands
`pre = ⌈11/2⌉ = 6`, `post = 5` and `pre + m + post = 21`; the code truncates
both flanks to `5`, and `5 + 10 + 5 ≠ 21`. -/
theorem bed_flank_padding_cex :
    (10 : Int) ≤ 21 ∧
    processBedRow 21 15 0 "chr1" 0 10 =
      (("chr1", -5, 15),
       ("seq_0",
        { seq := 0, mut_start := 5, mut_end := 15, mut_name := "chr1:0-10",
          resp_start := [-10], resp_end := [30], resp_names := ["flank_15"] })) ∧
    (5 : Int) ≠ ceilHalf (21 - 10) ∧
    ¬ ((5 : Int) + 10 + 5 = 21) := by decide

/-! ## Claim C3: no window-too-small failure exists -/

/-- Coordinate rows accumulate one-per-input-row in the flank-only mapper. -/
theorem process_bed_coords_length (seq_len flank_size : Int)
    (bed_rows : List (String × Int × Int)) :
    (process_seqs_and_locations_from_bed seq_len flank_size bed_rows).1.length =
      bed_rows.length := by
  unfold process_seqs_and_locations_from_bed
  suffices h : ∀ (l : List (Nat × (String × Int × Int)))
      (acc : List (String × Int × Int) × Dict),
      (l.foldl (fun acc p =>
        let r := processBedRow seq_len flank_size p.1 p.2.1 p.2.2.1 p.2.2.2
        (acc.1 ++ [r.1], dictInsert r.2.1 r.2.2 acc.2)) acc).1.length =
        acc.1.length + l.length by
    rw [h]
    simp [List.enum_length]
  intro l
  induction l with
  | nil => intro acc; simp
  | cons a l ih =>
    intro acc
    rw [List.foldl_cons, ih]
    simp
    omega

/-- C3 (amended).  The flank-only mapper performs no window-size validation
at all: when `window_length < end - start` the pad is negative and the code
silently continues — every input row still yields its coordinate row and
record, with the same ceiling/floor split for odd sizes, and with Python
`int()` truncation rounding the (negative) half pad up for even sizes.  No
`WindowTooSmallError` (or any other failure) occurs, and the batch is never
aborted. -/
theorem bed_window_too_small_amended :
    (∀ (seq_len flank_size : Int) (bed_ind : Nat) (chrom : String) (start «end» : Int),
      seq_len - («end» - start) < 0 →
      ∃ pre post : Int,
        processBedRow seq_len flank_size bed_ind chrom start «end» =
          ((chrom, start - pre, «end» + post),
           ("seq_" ++ Nat.repr bed_ind,
            { seq := bed_ind
              mut_start := pre
              mut_end := pre + («end» - start)
              mut_name := chrom ++ ":" ++ toString start ++ "-" ++ toString «end»
              resp_start := [pre - flank_size]
              resp_end := [pre + («end» - start) + flank_size]
              resp_names := ["flank_" ++ toString flank_size] })) ∧
        ((«end» - start) % 2 ≠ 0 →
          pre = ceilHalf (seq_len - («end» - start)) ∧
          post = floorHalf (seq_len - («end» - start)) ∧
          pre + («end» - start) + post = seq_len) ∧
        ((«end» - start) % 2 = 0 →
          pre = post ∧ post = ceilHalf (seq_len - («end» - start)) ∧
          pre + («end» - start) + post = seq_len + (seq_len - («end» - start)) % 2)) ∧
    (∀ (seq_len flank_size : Int) (bed_rows : List (String × Int × Int)),
      (process_seqs_and_locations_from_bed seq_len flank_size bed_rows).1.length =
        bed_rows.length) := by
  constructor
  · intro seq_len flank_size bed_ind chrom start «end» hneg
    exact ⟨pre_mut_flank seq_len («end» - start), post_mut_flank seq_len («end» - start),
      rfl, flank_arith_neg seq_len («end» - start) hneg⟩
  · exact fun seq_len flank_size bed_rows => process_bed_coords_length seq_len flank_size bed_rows

/-- Witness for C3 (amended) at `window_length = 20`, interval `(0, 30)`. -/
theorem bed_window_too_small_amended_witness :
    ∃ pre post : Int,
      processBedRow 20 15 0 "chr1" 0 30 =
        (("chr1", 0 - pre, 30 + post),
         ("seq_" ++ Nat.repr 0,
          { seq := 0
            mut_start := pre
            mut_end := pre + (30 - 0)
            mut_name := "chr1" ++ ":" ++ toString (0 : Int) ++ "-" ++ toString (30 : Int)
            resp_start := [pre - 15]
            resp_end := [pre + (30 - 0) + 15]
            resp_names := ["flank_" ++ toString (15 : Int)] })) ∧
      (((30 : Int) - 0) % 2 ≠ 0 →
        pre = ceilHalf (20 - (30 - 0)) ∧
        post = floorHalf (20 - (30 - 0)) ∧
        pre + (30 - 0) + post = 20) ∧
      (((30 : Int) - 0) % 2 = 0 →
        pre = post ∧ post = ceilHalf (20 - (30 - 0)) ∧
        pre + (30 - 0) + post = 20 + ((20 : Int) - (30 - 0)) % 2) :=
  bed_window_too_small_amended.1 20 15 0 "chr1" 0 30 (by decide)

/-- Counterexample to C3 as stated: `window_length = 20` is smaller than the
interval span `30`, yet the batch completes and returns a full (not partial,
not aborted) result. -/
theorem bed_window_too_small_cex :
    (20 : Int) < 30 ∧
    process_seqs_and_locations_from_bed 20 15 [("chr1", 0, 30)] =
      ([("chr1", 5, 25)],
       [("seq_0",
         { seq := 0, mut_start := -5, mut_end := 25, mut_name := "chr1:0-30",
           resp_start := [-20], resp_end := [40], resp_names := ["flank_15"] })]) := by
  decide

/-! ## Claim C2: column roles in the label-overlap mapper -/

/-- List indexing past a three-cell prefix and an appended block. -/
theorem getElem?_three_cons_append (a b c : Cell) (l1 l2 : List Cell) (k : Nat) :
    (a :: b :: c :: (l1 ++ l2))[3 + l1.length + k]? = l2[k]? := by
  have h : 3 + l1.length + k = l1.length + k + 1 + 1 + 1 := by omega
  rw [h, List.getElem?_cons_succ, List.getElem?_cons_succ, List.getElem?_cons_succ,
      List.getElem?_append_right (by omega)]
  congr 1
  omega

/-- Evaluation of one joined row of the label-overlap mapper: the window
span and padding come from the first three cells (the labels row's
interval), the feature from cells `labels_ncols + 1` and `+ 2` (the bed
row's `start`/`end`). -/
theorem processIntersectRow_shape (seq_len flank_size : Int) (bed_ind : Nat)
    (lc : String) (ls le : Int) (extraA : List Cell)
    (bc : String) (bs be : Int) (extraB : List Cell) :
    processIntersectRow seq_len flank_size (3 + extraA.length) bed_ind
      ((Cell.str lc :: Cell.int ls :: Cell.int le :: extraA) ++
       (Cell.str bc :: Cell.int bs :: Cell.int be :: extraB)) =
      some ((lc, ls - pre_mut_flank seq_len (le - ls),
             le + post_mut_flank seq_len (le - ls)),
        ("seq_" ++ Nat.repr bed_ind,
         { seq := bed_ind
           mut_start := bs - ls + pre_mut_flank seq_len (le - ls)
           mut_end := be - ls + post_mut_flank seq_len (le - ls)
           mut_name := lc ++ ":" ++ toString ls ++ "-" ++ toString le
           resp_start := [bs - ls + pre_mut_flank seq_len (le - ls) - flank_size]
           resp_end := [be - ls + post_mut_flank seq_len (le - ls) + flank_size]
           resp_names := ["flank_" ++ toString flank_size] })) := by
  have hrow : (Cell.str lc :: Cell.int ls :: Cell.int le :: extraA) ++
      (Cell.str bc :: Cell.int bs :: Cell.int be :: extraB) =
      Cell.str lc :: Cell.int ls :: Cell.int le ::
        (extraA ++ (Cell.str bc :: Cell.int bs :: Cell.int be :: extraB)) := rfl
  have h1 : (Cell.str lc :: Cell.int ls :: Cell.int le ::
      (extraA ++ (Cell.str bc :: Cell.int bs :: Cell.int be :: extraB)))[3 + extraA.length + 1]? =
      some (Cell.int bs) := by
    rw [getElem?_three_cons_append]
    simp [List.getElem?_cons_succ, List.getElem?_cons_zero]
  have h2 : (Cell.str lc :: Cell.int ls :: Cell.int le ::
      (extraA ++ (Cell.str bc :: Cell.int bs :: Cell.int be :: extraB)))[3 + extraA.length + 2]? =
      some (Cell.int be) := by
    rw [getElem?_three_cons_append]
    simp [List.getElem?_cons_succ, List.getElem?_cons_zero]
  rw [processIntersectRow, hrow]
  simp only [List.getElem?_cons_zero, List.getElem?_cons_succ, h1, h2,
    Option.bind_eq_bind, Option.some_bind, Cell.asStr, Cell.asInt]
  rfl

/-- C2 (amended).  The roles are the opposite of the claim: in each joined
row (labels-table row `A` followed by bed-table row `B`, as produced by
`intersect(wa=True, wb=True)` called on the labels BedTool), the window span
and padding are computed from the LABELS row's interval (columns 0-2), while
`mut_start`/`mut_end` are the BED row's `start`/`end` (joined columns
`len(labels.columns) + 1` and `+ 2`) translated by the labels row's start:
`mut_start = bed_start - label_start + pre`,
`mut_end = bed_end - label_start + post`, with the same parity-keyed padding
rule as the flank-only mapper applied to the labels row's size. -/
theorem labels_mapper_roles (seq_len flank_size : Int) (bed_ind : Nat)
    (lc : String) (ls le : Int) (extraA : List Cell)
    (bc : String) (bs be : Int) (extraB : List Cell) :
    processIntersectRow seq_len flank_size (3 + extraA.length) bed_ind
      ((Cell.str lc :: Cell.int ls :: Cell.int le :: extraA) ++
       (Cell.str bc :: Cell.int bs :: Cell.int be :: extraB)) =
      some ((lc, ls - pre_mut_flank seq_len (le - ls),
             le + post_mut_flank seq_len (le - ls)),
        ("seq_" ++ Nat.repr bed_ind,
         { seq := bed_ind
           mut_start := bs - ls + pre_mut_flank seq_len (le - ls)
           mut_end := be - ls + post_mut_flank seq_len (le - ls)
           mut_name := lc ++ ":" ++ toString ls ++ "-" ++ toString le
           resp_start := [bs - ls + pre_mut_flank seq_len (le - ls) - flank_size]
           resp_end := [be - ls + post_mut_flank seq_len (le - ls) + flank_size]
           resp_names := ["flank_" ++ toString flank_size] })) :=
  processIntersectRow_shape seq_len flank_size bed_ind lc ls le extraA bc bs be extraB

/-- Counterexample to C2 as stated: bed ("interval") row `(chr1, 10, 14)`,
labels row `(chr1, 0, 20)` with appended feature columns `5, 9`,
`window_length = 30`.  The claim predicts padding from the interval's size
`4` (`pre = 13`, padded start `10 - 13 = -3`) and
`mut_start = 5 - 10 + 13 = 8`; the code pads from the labels row's size `20`
(`pre = 5`, padded start `-5`) and takes `mut_start = 10 - 0 + 5 = 15` from
the bed row's coordinates. -/
theorem labels_mapper_roles_cex :
    process_seqs_and_locations_from_bed_and_labels 30 15
      [[Cell.str "chr1", Cell.int 10, Cell.int 14]]
      [[Cell.str "chr1", Cell.int 0, Cell.int 20, Cell.int 5, Cell.int 9]] =
      some ([("chr1", -5, 25)],
        [("seq_0",
          { seq := 0, mut_start := 15, mut_end := 19, mut_name := "chr1:0-20",
            resp_start := [0], resp_end := [34], resp_names := ["flank_15"] })]) ∧
    (15 : Int) ≠ 5 - 10 + pre_mut_flank 30 (14 - 10) ∧
    (-5 : Int) ≠ 10 - pre_mut_flank 30 (14 - 10) := by
  decide

/-! ## The sequence encoder: claims C7 and C8 -/

theorem charCol_ok_of_mem {c : Char} (h : c ∈ supportedChars) :
    ∃ o, charCol c = Except.ok o := by
  simp only [supportedChars, List.mem_cons, List.not_mem_nil, or_false] at h
  rcases h with rfl | rfl | rfl | rfl | rfl | rfl | rfl | rfl | rfl | rfl <;> exact ⟨_, rfl⟩

theorem charCol_error_of_not_mem {c : Char} (h : c ∉ supportedChars) :
    charCol c = Except.error c := by
  simp only [supportedChars, List.mem_cons, List.not_mem_nil, or_false, not_or] at h
  obtain ⟨h1, h2, h3, h4, h5, h6, h7, h8, h9, h10⟩ := h
  simp [charCol, h1, h2, h3, h4, h5, h6, h7, h8, h9, h10]

theorem mapM_charCol_ok (l : List Char) (h : ∀ c ∈ l, c ∈ supportedChars) :
    ∃ cols, l.mapM charCol = Except.ok cols ∧
      List.Forall₂ (fun c o => charCol c = Except.ok o) l cols := by
  induction l with
  | nil => exact ⟨[], rfl, List.Forall₂.nil⟩
  | cons a l ih =>
    obtain ⟨o, ho⟩ := charCol_ok_of_mem (h a (List.mem_cons_self a l))
    obtain ⟨cols, hc, hf⟩ := ih (fun c hc1 => h c (List.mem_cons_of_mem a hc1))
    refine ⟨o :: cols, ?_, List.Forall₂.cons ho hf⟩
    rw [List.mapM_cons, ho, hc]
    rfl

theorem mapM_charCol_error (l : List Char) :
    ∀ c, l.find? (fun x => decide (x ∉ supportedChars)) = some c →
      l.mapM charCol = Except.error c := by
  induction l with
  | nil => intro c h; simp [List.find?] at h
  | cons a l ih =>
    intro c h
    by_cases ha : a ∈ supportedChars
    · have hpa : decide (a ∉ supportedChars) = false := by simp [ha]
      rw [List.find?_cons] at h
      simp only [hpa] at h
      obtain ⟨o, ho⟩ := charCol_ok_of_mem ha
      rw [List.mapM_cons, ho, ih c h]
      rfl
    · have hpa : decide (a ∉ supportedChars) = true := by simp [ha]
      rw [List.find?_cons] at h
      simp only [hpa] at h
      obtain rfl : a = c := by injection h
      rw [List.mapM_cons, charCol_error_of_not_mem ha]
      rfl

/-- C8 (amended).  `one_hot_encode` raises exactly when the input contains a
character outside `{A,C,G,T,N}` (case-insensitive); the raised error carries
the first offending character scanned left to right — but only the
character, not its position. -/
theorem one_hot_encode_error_amended (s : String) :
    (∀ c : Char, s.data.find? (fun x => decide (x ∉ supportedChars)) = some c →
      one_hot_encode s = Except.error ("Unsupported character: " ++ toString c)) ∧
    (s.data.find? (fun x => decide (x ∉ supportedChars)) = none →
      ∃ rows, one_hot_encode s = Except.ok rows) := by
  constructor
  · intro c h
    unfold one_hot_encode
    rw [mapM_charCol_error s.data c h]
  · intro h
    have hall : ∀ c ∈ s.data, c ∈ supportedChars := by
      intro c hc
      by_contra hnc
      have h2 := List.find?_eq_none.mp h c hc
      simp [hnc] at h2
    obtain ⟨cols, hc, _⟩ := mapM_charCol_ok s.data hall
    refine ⟨cols.map oneHotRow, ?_⟩
    unfold one_hot_encode
    rw [hc]

/-- Witness for C8 (amended), spec scenario B: `encode("Z")` raises. -/
theorem one_hot_encode_error_amended_witness :
    one_hot_encode "Z" = Except.error ("Unsupported character: " ++ toString 'Z') :=
  (one_hot_encode_error_amended "Z").1 'Z' (by decide)

/-- Counterexample to C8 as stated: the error cannot carry the offending
position.  In `"AZ"` the offending `Z` is at position 1, in `"ZA"` at
position 0, yet the two raised errors are identical. -/
theorem one_hot_encode_error_cex :
    one_hot_encode "AZ" = Except.error "Unsupported character: Z" ∧
    one_hot_encode "ZA" = Except.error "Unsupported character: Z" ∧
    one_hot_encode "AZ" = one_hot_encode "ZA" := by decide

/-- The per-character facts of the one-hot row selected for a supported
character. -/
theorem charCol_row_spec (c : Char) (o : Option Nat) (h : charCol c = Except.ok o)
    (hm : c ∈ supportedChars) :
    ((c = 'A' ∨ c = 'a') → oneHotRow o = [1, 0, 0, 0]) ∧
    ((c = 'C' ∨ c = 'c') → oneHotRow o = [0, 1, 0, 0]) ∧
    ((c = 'G' ∨ c = 'g') → oneHotRow o = [0, 0, 1, 0]) ∧
    ((c = 'T' ∨ c = 't') → oneHotRow o = [0, 0, 0, 1]) ∧
    ((c = 'N' ∨ c = 'n') → oneHotRow o = [0, 0, 0, 0]) ∧
    ((oneHotRow o).sum = 1 ↔
      (c = 'A' ∨ c = 'a' ∨ c = 'C' ∨ c = 'c' ∨ c = 'G' ∨ c = 'g' ∨ c = 'T' ∨ c = 't')) ∧
    ((oneHotRow o).sum = 0 ↔ (c = 'N' ∨ c = 'n')) := by
  simp only [supportedChars, List.mem_cons, List.not_mem_nil, or_false] at hm
  rcases hm with rfl | rfl | rfl | rfl | rfl | rfl | rfl | rfl | rfl | rfl
  · obtain rfl := (Except.ok.inj
      (show (Except.ok (some 0) : Except Char (Option Nat)) = Except.ok o from h)).symm
    decide
  · obtain rfl := (Except.ok.inj
      (show (Except.ok (some 0) : Except Char (Option Nat)) = Except.ok o from h)).symm
    decide
  · obtain rfl := (Except.ok.inj
      (show (Except.ok (some 1) : Except Char (Option Nat)) = Except.ok o from h)).symm
    decide
  · obtain rfl := (Except.ok.inj
      (show (Except.ok (some 1) : Except Char (Option Nat)) = Except.ok o from h)).symm
    decide
  · obtain rfl := (Except.ok.inj
      (show (Except.ok (some 2) : Except Char (Option Nat)) = Except.ok o from h)).symm
    decide
  · obtain rfl := (Except.ok.inj
      (show (Except.ok (some 2) : Except Char (Option Nat)) = Except.ok o from h)).symm
    decide
  · obtain rfl := (Except.ok.inj
      (show (Except.ok (some 3) : Except Char (Option Nat)) = Except.ok o from h)).symm
    decide
  · obtain rfl := (Except.ok.inj
      (show (Except.ok (some 3) : Except Char (Option Nat)) = Except.ok o from h)).symm
    decide
  · obtain rfl := (Except.ok.inj
      (show (Except.ok none : Except Char (Option Nat)) = Except.ok o from h)).symm
    decide
  · obtain rfl := (Except.ok.inj
      (show (Except.ok none : Except Char (Option Nat)) = Except.ok o from h)).symm
    decide

/-- C7.  On inputs over the supported alphabet, `one_hot_encode` returns one
row of width 4 per input character, with the documented column for each
nucleotide, an all-zero row exactly for `N`/`n`, and row sum 1 exactly for
`A/C/G/T` (case-insensitive); in particular `encode("ACGTN")` is the
identity-like matrix of spec scenario A. -/
theorem one_hot_encode_props :
    (∀ s : String, (∀ c ∈ s.data, c ∈ supportedChars) →
      ∃ rows, one_hot_encode s = Except.ok rows ∧
        rows.length = s.length ∧
        (∀ row ∈ rows, row.length = 4) ∧
        (∀ (i : Nat) (c : Char), s.data[i]? = some c →
          ∃ row, rows[i]? = some row ∧
            ((c = 'A' ∨ c = 'a') → row = [1, 0, 0, 0]) ∧
            ((c = 'C' ∨ c = 'c') → row = [0, 1, 0, 0]) ∧
            ((c = 'G' ∨ c = 'g') → row = [0, 0, 1, 0]) ∧
            ((c = 'T' ∨ c = 't') → row = [0, 0, 0, 1]) ∧
            ((c = 'N' ∨ c = 'n') → row = [0, 0, 0, 0]) ∧
            (row.sum = 1 ↔
              (c = 'A' ∨ c = 'a' ∨ c = 'C' ∨ c = 'c' ∨
               c = 'G' ∨ c = 'g' ∨ c = 'T' ∨ c = 't')) ∧
            (row.sum = 0 ↔ (c = 'N' ∨ c = 'n')))) ∧
    one_hot_encode "ACGTN" =
      Except.ok [[1, 0, 0, 0], [0, 1, 0, 0], [0, 0, 1, 0], [0, 0, 0, 1], [0, 0, 0, 0]] := by
  constructor
  · intro s hsup
    obtain ⟨cols, hc, hf⟩ := mapM_charCol_ok s.data hsup
    have hlen := List.Forall₂.length_eq hf
    refine ⟨cols.map oneHotRow, by unfold one_hot_encode; rw [hc], ?_, ?_, ?_⟩
    · calc (cols.map oneHotRow).length = cols.length := List.length_map cols oneHotRow
        _ = s.data.length := hlen.symm
        _ = s.length := rfl
    · intro row hrow
      obtain ⟨o, _, rfl⟩ := List.mem_map.mp hrow
      cases o <;> simp [oneHotRow]
    · intro i c hi
      have hic : i < s.data.length := by
        by_contra hlt
        rw [List.getElem?_eq_none (by omega)] at hi
        exact Option.noConfusion hi

      have hcc : s.data[i] = c := by
        rw [List.getElem?_eq_getElem hic] at hi
        injection hi
      have hio : i < cols.length := by omega
      rw [List.forall₂_iff_get] at hf
      have ho := hf.2 i hic hio
      rw [List.get_eq_getElem, List.get_eq_getElem, hcc] at ho
      have hrowi : (cols.map oneHotRow)[i]? = some (oneHotRow cols[i]) := by
        rw [List.getElem?_map, List.getElem?_eq_getElem hio]
        rfl
      have hcm : c ∈ supportedChars := by
        rw [← hcc]
        exact hsup _ (List.getElem_mem hic)
      exact ⟨oneHotRow cols[i], hrowi, charCol_row_spec c cols[i] ho hcm⟩
  · decide

/-- Witness for C7, spec scenario A. -/
theorem one_hot_encode_props_witness :
    ∃ rows, one_hot_encode "ACGTN" = Except.ok rows ∧
      rows.length = "ACGTN".length ∧ ∀ row ∈ rows, row.length = 4 := by
  obtain ⟨rows, h1, h2, h3, _⟩ := one_hot_encode_props.1 "ACGTN" (by decide)
  exact ⟨rows, h1, h2, h3⟩

/-! ## Claim C9: the prediction-correctness filter -/

theorem mapM_option_eq_map {α β : Type} (f : α → Option β) (g : α → β) (l : List α)
    (h : ∀ x ∈ l, f x = some (g x)) : l.mapM f = some (l.map g) := by
  induction l with
  | nil => rfl
  | cons a l ih =>
    rw [List.mapM_cons, h a (List.mem_cons_self a l),
      ih (fun x hx => h x (List.mem_cons_of_mem a hx))]
    rfl

theorem gcp_step_eq (tl : List Int) (pl : List ℚ) (pos : ℚ) (neg : Option ℚ) (i : Nat)
    (hi : i < tl.length) (hip : i < pl.length) :
    gcp_step tl pl pos neg i = some (gcp_block tl pl pos neg i) := by
  unfold gcp_step gcp_block
  rw [List.getElem?_eq_getElem hi, List.getElem?_eq_getElem hip]
  simp only [Option.bind_eq_bind, Option.some_bind,
    List.getD_eq_getElem tl 0 hi, List.getD_eq_getElem pl 0 hip]
  rfl

theorem mem_gcp_block {tl : List Int} {pl : List ℚ} {pos : ℚ} {neg : Option ℚ} {i j : Nat}
    (h : j ∈ gcp_block tl pl pos neg i) : j = i := by
  unfold gcp_block at h
  rw [List.mem_append] at h
  rcases h with h | h
  · split_ifs at h <;> simp_all
  · cases neg with
    | none => simp [gcp_negBlock] at h
    | some nt =>
      simp only [gcp_negBlock] at h
      split_ifs at h <;> simp_all

theorem gcp_block_pairwise (tl : List Int) (pl : List ℚ) (pos : ℚ) (neg : Option ℚ)
    (i : Nat) : (gcp_block tl pl pos neg i).Pairwise (fun a b => a < b) := by
  unfold gcp_block
  cases neg with
  | none => simp only [gcp_negBlock]; split_ifs <;> simp
  | some nt =>
    simp only [gcp_negBlock]
    by_cases hA : tl.getD i 0 = 1 ∧ pos < pl.getD i 0
    · rw [if_pos hA]
      by_cases hB : tl.getD i 0 = 0 ∧ pl.getD i 0 < nt
      · exfalso
        obtain ⟨ha1, _⟩ := hA
        obtain ⟨hb1, _⟩ := hB
        omega
      · rw [if_neg hB]
        simp
    · rw [if_neg hA]
      by_cases hB : tl.getD i 0 = 0 ∧ pl.getD i 0 < nt
      · rw [if_pos hB]
        simp
      · rw [if_neg hB]
        simp

/-- C9.  `get_correct_predictions` returns exactly the indices `i` with
`true_labels[i] == 1` and `predicted_scores[i] > pos_threshold`, plus, when
`neg_threshold` is supplied, those with `true_labels[i] == 0` and
`predicted_scores[i] < neg_threshold`; the list is in strictly ascending
index order (hence contains each index at most once); in particular
`filter_correct([1,0,1,0],[0.9,0.2,0.3,0.6], 0.5, 0.5) = [0, 1]`. -/
theorem get_correct_predictions_props :
    (∀ (true_labels : List Int) (predicted_labels : List ℚ) (pos_threshold : ℚ)
        (neg_threshold : Option ℚ),
      true_labels.length ≤ predicted_labels.length →
      ∃ l, get_correct_predictions true_labels predicted_labels pos_threshold
          neg_threshold = some l ∧
        (∀ i : Nat, i ∈ l ↔
          ((true_labels[i]? = some 1 ∧
            ∃ p, predicted_labels[i]? = some p ∧ pos_threshold < p) ∨
           (∃ nt, neg_threshold = some nt ∧ true_labels[i]? = some 0 ∧
            ∃ p, predicted_labels[i]? = some p ∧ p < nt))) ∧
        l.Pairwise (fun a b => a < b)) ∧
    get_correct_predictions [1, 0, 1, 0] [0.9, 0.2, 0.3, 0.6] 0.5 (some 0.5) =
      some [0, 1] := by
  constructor
  · intro tl pl pos neg hlen
    have hstep : ∀ i ∈ List.range tl.length,
        gcp_step tl pl pos neg i = some (gcp_block tl pl pos neg i) := by
      intro i hi
      rw [List.mem_range] at hi
      exact gcp_step_eq tl pl pos neg i hi (lt_of_lt_of_le hi hlen)
    refine ⟨((List.range tl.length).map (gcp_block tl pl pos neg)).flatten, ?_, ?_, ?_⟩
    · unfold get_correct_predictions
      rw [mapM_option_eq_map _ _ _ hstep]
      rfl
    · intro i
      constructor
      · intro hi
        rw [List.mem_flatten] at hi
        obtain ⟨b, hb, hib⟩ := hi
        obtain ⟨j, hj, rfl⟩ := List.mem_map.mp hb
        obtain rfl := mem_gcp_block hib
        rw [List.mem_range] at hj
        have hip : i < pl.length := lt_of_lt_of_le hj hlen
        unfold gcp_block at hib
        rw [List.mem_append] at hib
        rcases hib with h | h
        · left
          split_ifs at h with h1
          · rw [List.getD_eq_getElem tl 0 hj, List.getD_eq_getElem pl 0 hip] at h1
            rw [List.getElem?_eq_getElem hj, List.getElem?_eq_getElem hip]
            exact ⟨by rw [h1.1], pl[i], rfl, h1.2⟩
          · simp at h
        · cases neg with
          | none => simp [gcp_negBlock] at h
          | some nt =>
            right
            simp only [gcp_negBlock] at h
            split_ifs at h with h1
            · rw [List.getD_eq_getElem tl 0 hj, List.getD_eq_getElem pl 0 hip] at h1
              rw [List.getElem?_eq_getElem hj, List.getElem?_eq_getElem hip]
              exact ⟨nt, rfl, by rw [h1.1], pl[i], rfl, h1.2⟩
            · simp at h
      · intro hcond
        have hin : i < tl.length := by
          rcases hcond with ⟨h1, _⟩ | ⟨nt, _, h1, _⟩ <;>
          · by_contra hlt
            rw [List.getElem?_eq_none (by omega)] at h1
            exact Option.noConfusion h1
        have hip : i < pl.length := lt_of_lt_of_le hin hlen
        rw [List.mem_flatten]
        refine ⟨gcp_block tl pl pos neg i,
          List.mem_map_of_mem _ (List.mem_range.mpr hin), ?_⟩
        unfold gcp_block
        rw [List.mem_append]
        rcases hcond with ⟨h1, p, hp, hpp⟩ | ⟨nt, hnt, h1, p, hp, hpp⟩
        · left
          rw [List.getElem?_eq_getElem hin] at h1
          rw [List.getElem?_eq_getElem hip] at hp
          have ht : tl.getD i 0 = 1 := by
            rw [List.getD_eq_getElem tl 0 hin]
            injection h1
          have hpv : pos < pl.getD i 0 := by
            rw [List.getD_eq_getElem pl 0 hip]
            obtain rfl : pl[i] = p := by injection hp
            exact hpp
          rw [if_pos ⟨ht, hpv⟩]
          simp
        · right
          subst hnt
          rw [List.getElem?_eq_getElem hin] at h1
          rw [List.getElem?_eq_getElem hip] at hp
          have ht : tl.getD i 0 = 0 := by
            rw [List.getD_eq_getElem tl 0 hin]
            injection h1
          have hpv : pl.getD i 0 < nt := by
            rw [List.getD_eq_getElem pl 0 hip]
            obtain rfl : pl[i] = p := by injection hp
            exact hpp
          simp only [gcp_negBlock]
          rw [if_pos ⟨ht, hpv⟩]
          simp
    · rw [List.pairwise_flatten]
      constructor
      · intro b hb
        obtain ⟨j, _, rfl⟩ := List.mem_map.mp hb
        exact gcp_block_pairwise tl pl pos neg j
      · rw [List.pairwise_map]
        refine List.Pairwise.imp ?_ (List.pairwise_lt_range tl.length)
        intro a b hab x hx y hy
        obtain rfl := mem_gcp_block hx
        obtain rfl := mem_gcp_block hy
        exact hab
  · have h0 : gcp_step [1, 0, 1, 0] [0.9, 0.2, 0.3, 0.6] 0.5 (some 0.5) 0 = some [0] := by
      unfold gcp_step
      norm_num [gcp_negBlock]
    have h1 : gcp_step [1, 0, 1, 0] [0.9, 0.2, 0.3, 0.6] 0.5 (some 0.5) 1 = some [1] := by
      unfold gcp_step
      norm_num [gcp_negBlock]
    have h2 : gcp_step [1, 0, 1, 0] [0.9, 0.2, 0.3, 0.6] 0.5 (some 0.5) 2 = some [] := by
      unfold gcp_step
      norm_num [gcp_negBlock]
    have h3 : gcp_step [1, 0, 1, 0] [0.9, 0.2, 0.3, 0.6] 0.5 (some 0.5) 3 = some [] := by
      unfold gcp_step
      norm_num [gcp_negBlock]
    unfold get_correct_predictions
    have hr : List.range ([1, 0, 1, 0] : List Int).length = [0, 1, 2, 3] := rfl
    rw [hr]
    rw [List.mapM_cons, h0, List.mapM_cons, h1, List.mapM_cons, h2, List.mapM_cons, h3]
    rfl

/-- Witness for C9 at spec scenario F. -/
theorem get_correct_predictions_props_witness :
    ∃ l, get_correct_predictions [1, 0, 1, 0] [0.9, 0.2, 0.3, 0.6] 0.5 (some 0.5) =
        some l ∧ l.Pairwise (fun a b => a < b) := by
  obtain ⟨l, ha, _, hc⟩ :=
    get_correct_predictions_props.1 [1, 0, 1, 0] [0.9, 0.2, 0.3, 0.6] 0.5 (some 0.5)
      (by simp)
  exact ⟨l, ha, hc⟩

/-! ## Lemmas on the Python string primitives -/

theorem pySplitAux_of_not_mem (c : Char) (xs : List Char) :
    ∀ acc, c ∉ xs → pySplitAux c acc xs = [acc.reverse ++ xs] := by
  induction xs with
  | nil => intro acc _; simp [pySplitAux]
  | cons x xs ih =>
    intro acc h
    have hx : ¬ (x = c) := fun he => h (by simp [he])
    simp only [pySplitAux, if_neg hx]
    rw [ih (x :: acc) (fun hm => h (List.mem_cons_of_mem x hm))]
    simp

theorem pySplitAux_append (c : Char) (xs : List Char) :
    ∀ acc ys, c ∉ xs →
      pySplitAux c acc (xs ++ c :: ys) = (acc.reverse ++ xs) :: pySplit c ys := by
  induction xs with
  | nil =>
    intro acc ys _
    simp only [List.nil_append, pySplitAux, if_pos rfl]
    simp [pySplit]
  | cons x xs ih =>
    intro acc ys h
    have hx : ¬ (x = c) := fun he => h (by simp [he])
    simp only [List.cons_append, pySplitAux, if_neg hx, List.append_eq]
    rw [ih (x :: acc) ys (fun hm => h (List.mem_cons_of_mem x hm))]
    simp

theorem pySplit_of_not_mem (c : Char) (xs : List Char) (h : c ∉ xs) :
    pySplit c xs = [xs] := by
  rw [pySplit, pySplitAux_of_not_mem c xs [] h]
  simp

theorem pySplit_append (c : Char) (xs ys : List Char) (h : c ∉ xs) :
    pySplit c (xs ++ c :: ys) = xs :: pySplit c ys := by
  rw [pySplit, pySplitAux_append c xs [] ys h]
  simp

theorem pySplitOnceAux_append (c : Char) (xs : List Char) :
    ∀ acc ys, c ∉ xs →
      pySplitOnceAux c acc (xs ++ c :: ys) = [acc.reverse ++ xs, ys] := by
  induction xs with
  | nil =>
    intro acc ys _
    simp only [List.nil_append, pySplitOnceAux, if_pos rfl]
    simp
  | cons x xs ih =>
    intro acc ys h
    have hx : ¬ (x = c) := fun he => h (by simp [he])
    simp only [List.cons_append, pySplitOnceAux, if_neg hx, List.append_eq]
    rw [ih (x :: acc) ys (fun hm => h (List.mem_cons_of_mem x hm))]
    simp

theorem pySplitOnce_append (c : Char) (xs ys : List Char) (h : c ∉ xs) :
    pySplitOnce c (xs ++ c :: ys) = [xs, ys] := by
  rw [pySplitOnce, pySplitOnceAux_append c xs [] ys h]
  simp

theorem startsWith_self_append (pat rest : List Char) :
    startsWith pat (pat ++ rest) = true := by
  induction pat with
  | nil => rfl
  | cons p ps ih => simp [startsWith, ih]

theorem char_not_mem_digits {ds : List Char} (h : ∀ c ∈ ds, c.isDigit = true)
    {c : Char} (hc : c.isDigit = false) : c ∉ ds := by
  intro hm
  have h2 := h c hm
  rw [hc] at h2
  exact Bool.noConfusion h2

theorem pyReplaceAux_digits (p0 : Char) (ps : List Char) (hp0 : p0.isDigit = false) :
    ∀ (fuel : Nat) (ds : List Char), (∀ c ∈ ds, c.isDigit = true) →
      pyReplaceAux (p0 :: ps) fuel ds = ds := by
  intro fuel
  induction fuel with
  | zero => intro ds _; cases ds <;> rfl
  | succ fuel ih =>
    intro ds h
    cases ds with
    | nil => rfl
    | cons d dtl =>
      have hd : d.isDigit = true := h d (List.mem_cons_self d dtl)
      have hne : ¬ (p0 = d) := by
        intro he
        rw [he] at hp0
        rw [hp0] at hd
        exact Bool.noConfusion hd
      simp only [pyReplaceAux]
      rw [if_neg]
      · rw [ih dtl (fun c hc => h c (List.mem_cons_of_mem d hc))]
      · rintro ⟨_, h2⟩
        simp only [startsWith, Bool.and_eq_true, decide_eq_true_eq] at h2
        exact hne h2.1

theorem pyReplaceEmpty_pos_digits (ds : List Char)
    (h : ∀ c ∈ ds, c.isDigit = true) :
    pyReplaceEmpty "pos-".data ("pos-".data ++ ds) = ds := by
  show pyReplaceAux "pos-".data ("pos-".data ++ ds).length ("pos-".data ++ ds) = ds
  have hd : "pos-".data = 'p' :: 'o' :: 's' :: '-' :: [] := rfl
  rw [hd]
  simp only [List.cons_append, List.nil_append, List.length_cons]
  simp only [pyReplaceAux]
  have hsw : startsWith ('p' :: 'o' :: 's' :: '-' :: [])
      ('p' :: 'o' :: 's' :: '-' :: ds) = true := by
    simpa using startsWith_self_append ('p' :: 'o' :: 's' :: '-' :: []) ds
  rw [if_pos (And.intro (by simp) hsw)]
  have hdrop : List.drop (('p' :: 'o' :: 's' :: '-' :: ([] : List Char)).length - 1)
      ('o' :: 's' :: '-' :: ds) = ds := by
    simp
  rw [hdrop]
  exact pyReplaceAux_digits 'p' ['o', 's', '-'] (by decide) _ ds h

theorem parseDigitsAux_digits (ds : List Char) :
    ∀ acc, (∀ c ∈ ds, c.isDigit = true) →
      parseDigitsAux acc ds =
        some (ds.foldl (fun a c => a * 10 + (c.toNat - 48)) acc) := by
  induction ds with
  | nil => intro acc _; rfl
  | cons d ds ih =>
    intro acc h
    have hd : d.isDigit = true := h d (List.mem_cons_self d ds)
    have hdv : digitVal d = some (d.toNat - 48) := by rw [digitVal, if_pos hd]
    simp only [parseDigitsAux, hdv]
    rw [ih (acc * 10 + (d.toNat - 48)) (fun c hc => h c (List.mem_cons_of_mem d hc))]
    simp

theorem pyInt_digits (ds : List Char) (hne : ds ≠ [])
    (h : ∀ c ∈ ds, c.isDigit = true) :
    pyInt ds = some ((digitsVal ds : Nat) : Int) := by
  cases ds with
  | nil => exact absurd rfl hne
  | cons d dtl =>
    have hd : d.isDigit = true := h d (List.mem_cons_self d dtl)
    have hdm : ¬ ((d :: dtl).headD ' ' = '-') := by
      simp only [List.headD_cons]
      rintro rfl
      exact absurd hd (by decide)
    rw [pyInt, if_neg (by simp), if_neg hdm]
    rw [parseDigitsAux_digits (d :: dtl) 0 h]
    rfl

/-! ## Parsing a well-formed placement token -/

theorem mkTok_splitOnce (ds nm label : List Char)
    (hds : ∀ c ∈ ds, c.isDigit = true) :
    pySplitOnce '_' (mkTok ds nm label) = ["pos-".data ++ ds, nm ++ '-' :: label] := by
  have h1 : '_' ∉ "pos-".data ++ ds := by
    intro hm
    rcases List.mem_append.mp hm with h2 | h2
    · exact absurd h2 (by decide)
    · exact char_not_mem_digits hds (by decide) h2
  have hshape : mkTok ds nm label = ("pos-".data ++ ds) ++ '_' :: (nm ++ '-' :: label) := by
    rw [mkTok]
  rw [hshape, pySplitOnce_append '_' _ _ h1]

theorem mkTok_splitDash (ds nm label : List Char)
    (hds : ∀ c ∈ ds, c.isDigit = true) (hnm : '-' ∉ nm) (hlb : '-' ∉ label) :
    pySplit '-' (mkTok ds nm label) = [['p', 'o', 's'], ds ++ '_' :: nm, label] := by
  have hmid : '-' ∉ ds ++ '_' :: nm := by
    intro hm
    rcases List.mem_append.mp hm with h2 | h2
    · exact char_not_mem_digits hds (by decide) h2
    · rcases List.mem_cons.mp h2 with h3 | h3
      · exact absurd h3 (by decide)
      · exact hnm h3
  have hshape : mkTok ds nm label =
      ['p', 'o', 's'] ++ '-' :: ((ds ++ '_' :: nm) ++ '-' :: label) := by
    rw [mkTok]
    simp [List.append_assoc]
  rw [hshape, pySplit_append '-' _ _ (by decide),
    pySplit_append '-' _ _ hmid, pySplit_of_not_mem '-' label hlb]

theorem embPosStart_mkTok (ds nm label : List Char) (hne : ds ≠ [])
    (hds : ∀ c ∈ ds, c.isDigit = true) :
    embPosStart (mkTok ds nm label) = some ((digitsVal ds : Nat) : Int) := by
  unfold embPosStart
  rw [mkTok_splitOnce ds nm label hds]
  simp only [List.getElem?_cons_zero, Option.bind_eq_bind, Option.some_bind]
  rw [pyReplaceEmpty_pos_digits ds hds, pyInt_digits ds hne hds]

theorem embPosEnd_mkTok (ds nm label : List Char) (v : Int)
    (hds : ∀ c ∈ ds, c.isDigit = true) (hnm : '-' ∉ nm) (hlb : '-' ∉ label) :
    embPosEnd (mkTok ds nm label) v = v + label.length := by
  unfold embPosEnd
  rw [mkTok_splitDash ds nm label hds hnm hlb]
  rfl

theorem embMotif_mkTok (ds nm label : List Char)
    (hds : ∀ c ∈ ds, c.isDigit = true) (hnm : '-' ∉ nm) (hlb : '-' ∉ label) :
    embMotif (mkTok ds nm label) = some nm := by
  unfold embMotif
  rw [mkTok_splitOnce ds nm label hds]
  simp only [List.getElem?_cons_succ, List.getElem?_cons_zero,
    Option.bind_eq_bind, Option.some_bind]
  rw [pySplit_append '-' nm label hnm]
  simp

theorem embSeqEmbed_mkTok (ds nm label : List Char)
    (hds : ∀ c ∈ ds, c.isDigit = true) (hnm : '-' ∉ nm) (hlb : '-' ∉ label) :
    embSeqEmbed (mkTok ds nm label) = some label := by
  unfold embSeqEmbed
  rw [mkTok_splitOnce ds nm label hds]
  simp only [List.getElem?_cons_succ, List.getElem?_cons_zero,
    Option.bind_eq_bind, Option.some_bind]
  rw [pySplit_append '-' nm label hnm, pySplit_of_not_mem '-' label hlb]
  rfl

theorem respStartOf_mkTok (ds nm label : List Char) (hne : ds ≠ [])
    (hds : ∀ c ∈ ds, c.isDigit = true) (hnm : '-' ∉ nm)
    (hlb : '-' ∉ label) :
    respStartOf (mkTok ds nm label) = some ((digitsVal ds : Nat) : Int) := by
  unfold respStartOf
  rw [mkTok_splitDash ds nm label hds hnm hlb]
  simp only [List.getElem?_cons_succ, List.getElem?_cons_zero,
    Option.bind_eq_bind, Option.some_bind]
  rw [pySplit_append '_' ds nm (char_not_mem_digits hds (by decide))]
  simp only [List.headD_cons]
  exact pyInt_digits ds hne hds

theorem respLengthOf_mkTok (ds nm label : List Char)
    (hds : ∀ c ∈ ds, c.isDigit = true) (hnm : '-' ∉ nm) (hlb : '-' ∉ label) :
    respLengthOf (mkTok ds nm label) = label.length := by
  unfold respLengthOf
  rw [mkTok_splitDash ds nm label hds hnm hlb]
  rfl

theorem respNameOf_mkTok (ds nm label : List Char)
    (hds : ∀ c ∈ ds, c.isDigit = true) (hnm : '-' ∉ nm) (hnmu : '_' ∉ nm)
    (hlb : '-' ∉ label) :
    respNameOf (mkTok ds nm label) = some nm := by
  unfold respNameOf
  rw [mkTok_splitDash ds nm label hds hnm hlb]
  simp only [List.getElem?_cons_succ, List.getElem?_cons_zero,
    Option.bind_eq_bind, Option.some_bind]
  rw [pySplit_append '_' ds nm (char_not_mem_digits hds (by decide)),
    pySplit_of_not_mem '_' nm hnmu]
  rfl

/-! ## The decoder on well-formed rows -/

theorem mapM_map_option {α β γ : Type} (g : α → β) (f : β → Option γ) (h2 : α → γ) :
    ∀ l : List α, (∀ x ∈ l, f (g x) = some (h2 x)) →
      (l.map g).mapM f = some (l.map h2) := by
  intro l
  induction l with
  | nil => intro _; rfl
  | cons a l ih =>
    intro h
    rw [List.map_cons, List.mapM_cons, h a (List.mem_cons_self a l),
      ih (fun x hx => h x (List.mem_cons_of_mem a hx))]
    rfl

theorem zipWith_map_same {α β γ δ : Type} (f : β → γ → δ) (g : α → β) (h2 : α → γ) :
    ∀ l : List α, List.zipWith f (l.map g) (l.map h2) = l.map (fun x => f (g x) (h2 x)) := by
  intro l
  induction l with
  | nil => rfl
  | cons a l ih => simp [ih]

/-- What `decodeToken` stores for a well-formed token of a well-formed row:
the key `seq_<row>_emb_<token>`, `mut_start` the token's decimal position,
`mut_end = mut_start + len(label)`, `mut_name` the motif name, and the
response lists collecting position, position + label length and motif name
of every sibling token whose rendered string differs. -/
theorem decodeToken_mkTok (seq_ind : Nat) (toks : List TokParts)
    (hwf : ∀ u ∈ toks, u.wf) (t : TokParts) (ht : t ∈ toks) :
    decodeToken seq_ind (toks.map TokParts.tok) t.tok =
      some (tokKey seq_ind t.tok,
        tokRecord seq_ind (toks.filter (fun u => u.tok ≠ t.tok)) t) := by
  obtain ⟨hne, hds, hnmd, hnmu, _, hlbd, _⟩ := hwf t ht
  have htok : t.tok = mkTok t.ds t.nm t.label := rfl
  unfold decodeToken
  rw [htok, embPosStart_mkTok t.ds t.nm t.label hne hds,
    embMotif_mkTok t.ds t.nm t.label hds hnmd hlbd,
    embSeqEmbed_mkTok t.ds t.nm t.label hds hnmd hlbd]
  simp only [Option.bind_eq_bind, Option.some_bind]
  have hfil : (toks.map TokParts.tok).filter (fun e => e ≠ mkTok t.ds t.nm t.label) =
      (toks.filter (fun u => u.tok ≠ t.tok)).map TokParts.tok := by
    rw [List.filter_map]
    rfl
  rw [hfil]
  have hms : ((toks.filter (fun u => u.tok ≠ t.tok)).map TokParts.tok).mapM respStartOf =
      some ((toks.filter (fun u => u.tok ≠ t.tok)).map
        (fun u => ((digitsVal u.ds : Nat) : Int))) := by
    apply mapM_map_option
    intro u hu
    obtain ⟨hn1, hd1, hm1, _, _, hl1, _⟩ := hwf u (List.mem_of_mem_filter hu)
    exact respStartOf_mkTok u.ds u.nm u.label hn1 hd1 hm1 hl1
  rw [hms]
  simp only [Option.some_bind]
  have hmn : ((toks.filter (fun u => u.tok ≠ t.tok)).map TokParts.tok).mapM respNameOf =
      some ((toks.filter (fun u => u.tok ≠ t.tok)).map (fun u => u.nm)) := by
    apply mapM_map_option
    intro u hu
    obtain ⟨_, hd1, hm1, hu1, _, hl1, _⟩ := hwf u (List.mem_of_mem_filter hu)
    exact respNameOf_mkTok u.ds u.nm u.label hd1 hm1 hu1 hl1
  rw [hmn]
  simp only [Option.some_bind]
  rw [embPosEnd_mkTok t.ds t.nm t.label _ hds hnmd hlbd]
  rw [pySplit_of_not_mem '_' t.nm hnmu]
  rw [List.map_map]
  have hlens : (toks.filter (fun u => u.tok ≠ t.tok)).map (respLengthOf ∘ TokParts.tok) =
      (toks.filter (fun u => u.tok ≠ t.tok)).map (fun u => u.label.length) := by
    apply List.map_congr_left
    intro u hu
    obtain ⟨_, hd1, hm1, _, _, hl1, _⟩ := hwf u (List.mem_of_mem_filter hu)
    exact respLengthOf_mkTok u.ds u.nm u.label hd1 hm1 hl1
  rw [hlens, zipWith_map_same, List.map_map]
  rfl

/-! ## Dict lemmas -/

theorem dictLookup_dictInsert_self (k : String) (v : LocationRecord) (d : Dict) :
    dictLookup k (dictInsert k v d) = some v := by
  induction d with
  | nil => simp [dictInsert, dictLookup]
  | cons kv rest ih =>
    obtain ⟨k1, v1⟩ := kv
    by_cases h : k1 = k
    · subst h
      simp [dictInsert, dictLookup]
    · simp [dictInsert, dictLookup, h, ih]

theorem dictLookup_dictInsert_ne (k k1 : String) (hne : k1 ≠ k) (v : LocationRecord)
    (d : Dict) : dictLookup k (dictInsert k1 v d) = dictLookup k d := by
  induction d with
  | nil => simp [dictInsert, dictLookup, hne]
  | cons kv rest ih =>
    obtain ⟨k2, v2⟩ := kv
    by_cases h2 : k2 = k1
    · subst h2
      simp [dictInsert, dictLookup, hne]
    · by_cases h3 : k2 = k
      · subst h3
        simp [dictInsert, dictLookup, h2]
      · simp [dictInsert, dictLookup, h2, h3, ih]

theorem dictLookup_foldl_insert_of_ne (key : List Char → String)
    (R : List Char → LocationRecord) (k : String) :
    ∀ (l : List (List Char)) (d : Dict), (∀ x ∈ l, key x ≠ k) →
      dictLookup k (l.foldl (fun d1 e => dictInsert (key e) (R e) d1) d) =
        dictLookup k d := by
  intro l
  induction l with
  | nil => intro d _; rfl
  | cons a l ih =>
    intro d hk
    rw [List.foldl_cons, ih _ (fun x hx => hk x (List.mem_cons_of_mem a hx))]
    exact dictLookup_dictInsert_ne k (key a) (hk a (List.mem_cons_self a l)) (R a) d

theorem dictLookup_foldl_insert (key : List Char → String)
    (R : List Char → LocationRecord) (hinj : ∀ a b, key a = key b → a = b) :
    ∀ (l : List (List Char)) (d : Dict) (x : List Char), x ∈ l →
      dictLookup (key x) (l.foldl (fun d1 e => dictInsert (key e) (R e) d1) d) =
        some (R x) := by
  intro l
  induction l with
  | nil => intro d x hx; exact absurd hx (List.not_mem_nil x)
  | cons a l ih =>
    intro d x hx
    by_cases hxl : x ∈ l
    · rw [List.foldl_cons]
      exact ih _ x hxl
    · have hxa : x = a := by
        rcases List.mem_cons.mp hx with h | h
        · exact h
        · exact absurd h hxl
      subst hxa
      rw [List.foldl_cons,
        dictLookup_foldl_insert_of_ne key R (key x) l _
          (fun y hy hke => hxl ((hinj y x hke) ▸ hy))]
      exact dictLookup_dictInsert_self (key x) (R x) d

theorem foldlM_option_eq_foldl {α β : Type} (f : β → α → Option β) (g : β → α → β) :
    ∀ l : List α, (∀ (b : β), ∀ x ∈ l, f b x = some (g b x)) →
      ∀ b0, l.foldlM f b0 = some (l.foldl g b0) := by
  intro l
  induction l with
  | nil => intro _ b0; rfl
  | cons a l ih =>
    intro h b0
    rw [List.foldlM_cons, h b0 a (List.mem_cons_self a l)]
    exact ih (fun b x hx => h b x (List.mem_cons_of_mem a hx)) (g b0 a)

theorem tokKey_inj (seq_ind : Nat) (a b : List Char)
    (h : tokKey seq_ind a = tokKey seq_ind b) : a = b := by
  unfold tokKey at h
  have h2 := congrArg String.data h
  simp only [String.data_append, List.append_assoc] at h2
  exact List.append_cancel_left (List.append_cancel_left (List.append_cancel_left h2))

/-! ## Claim C4: per-token records of the synthetic-label decoder -/

/-- C4.  For every decoder row whose `embeddings` field splits on `,` into
well-formed placement tokens, the record stored under
`seq_<row>_emb_<token>` has `mut_start` the token's position, `mut_end`
position + label length, `mut_name` the motif name, and response lists
collecting the start, end and motif name of every other token `u ≠ t` of the
row; the spec's scenario C row decodes exactly as claimed. -/
theorem simdata_decoder_records :
    (∀ (seq_ind : Nat) (s : String) (toks : List TokParts),
      pySplit ',' s.data = toks.map TokParts.tok →
      (∀ u ∈ toks, u.wf) →
      ∀ t ∈ toks,
        ∃ d, decodeRow seq_ind (some s) [] = some d ∧
          dictLookup (tokKey seq_ind t.tok) d =
            some (tokRecord seq_ind (toks.filter (fun u => u.tok ≠ t.tok)) t)) ∧
    process_locations_from_simdata 1 [some "pos-10_TAL1-AAAA,pos-30_GATA1-CCCC"] =
      some [("seq_0_emb_pos-10_TAL1-AAAA",
             { seq := 0, mut_start := 10, mut_end := 14, mut_name := "TAL1",
               resp_start := [30], resp_end := [34], resp_names := ["GATA1"] }),
            ("seq_0_emb_pos-30_GATA1-CCCC",
             { seq := 0, mut_start := 30, mut_end := 34, mut_name := "GATA1",
               resp_start := [10], resp_end := [14], resp_names := ["TAL1"] })] := by
  constructor
  · intro seq_ind s toks hsplit hwf t ht
    have hrow : decodeRow seq_ind (some s) [] =
        (toks.map TokParts.tok).foldlM
          (fun d1 emb => (decodeToken seq_ind (toks.map TokParts.tok) emb).map
            (fun kv => dictInsert kv.1 kv.2 d1)) [] := by
      show (pySplit ',' s.data).foldlM
          (fun d1 emb => (decodeToken seq_ind (pySplit ',' s.data) emb).map
            (fun kv => dictInsert kv.1 kv.2 d1)) [] = _
      rw [hsplit]
    rw [hrow]
    have hstep : ∀ (d : Dict), ∀ e ∈ toks.map TokParts.tok,
        (decodeToken seq_ind (toks.map TokParts.tok) e).map
          (fun kv => dictInsert kv.1 kv.2 d) =
        some (dictInsert (tokKey seq_ind e)
          (((decodeToken seq_ind (toks.map TokParts.tok) e).map Prod.snd).getD
            ⟨0, 0, 0, "", [], [], []⟩) d) := by
      intro d e he
      obtain ⟨u, hu, rfl⟩ := List.mem_map.mp he
      rw [decodeToken_mkTok seq_ind toks hwf u hu]
      rfl
    rw [foldlM_option_eq_foldl _ _ (toks.map TokParts.tok) hstep []]
    refine ⟨_, rfl, ?_⟩
    rw [dictLookup_foldl_insert (tokKey seq_ind)
      (fun e => ((decodeToken seq_ind (toks.map TokParts.tok) e).map Prod.snd).getD
        ⟨0, 0, 0, "", [], [], []⟩)
      (tokKey_inj seq_ind) (toks.map TokParts.tok) [] t.tok
      (List.mem_map_of_mem TokParts.tok ht)]
    rw [decodeToken_mkTok seq_ind toks hwf t ht]
    rfl
  · decide

/-- Witness for C4 at the spec's scenario C row, first token. -/
theorem simdata_decoder_records_witness :
    ∃ d, decodeRow 7 (some "pos-10_TAL1-AAAA,pos-30_GATA1-CCCC") [] = some d ∧
      dictLookup (tokKey 7 (TokParts.mk "10".data "TAL1".data "AAAA".data).tok) d =
        some (tokRecord 7
          ([TokParts.mk "10".data "TAL1".data "AAAA".data,
            TokParts.mk "30".data "GATA1".data "CCCC".data].filter
            (fun u => u.tok ≠ (TokParts.mk "10".data "TAL1".data "AAAA".data).tok))
          (TokParts.mk "10".data "TAL1".data "AAAA".data)) :=
  simdata_decoder_records.1 7 "pos-10_TAL1-AAAA,pos-30_GATA1-CCCC"
    [TokParts.mk "10".data "TAL1".data "AAAA".data,
     TokParts.mk "30".data "GATA1".data "CCCC".data]
    (by decide) (by decide) (TokParts.mk "10".data "TAL1".data "AAAA".data) (by decide)

/-! ## Claim C5: response-list lengths -/

theorem length_filter_ne_tok (e : List Char) :
    ∀ toks : List TokParts,
      (toks.filter (fun u => u.tok ≠ e)).length =
        toks.length - (toks.map TokParts.tok).count e := by
  intro toks
  induction toks with
  | nil => rfl
  | cons a l ih =>
    have hc : (l.map TokParts.tok).count e ≤ l.length := by
      have h2 := List.count_le_length e (l.map TokParts.tok)
      simpa using h2
    by_cases h : a.tok = e
    · have h1 : (a :: l).filter (fun u => u.tok ≠ e) = l.filter (fun u => u.tok ≠ e) := by
        simp [List.filter_cons, h]
      have h2 : ((a :: l).map TokParts.tok).count e = (l.map TokParts.tok).count e + 1 := by
        simp [List.count_cons, h]
      rw [h1, h2]
      simp only [List.length_cons]
      rw [ih]
      omega
    · have h1 : (a :: l).filter (fun u => u.tok ≠ e) =
          a :: l.filter (fun u => u.tok ≠ e) := by
        simp [List.filter_cons, h]
      have h2 : ((a :: l).map TokParts.tok).count e = (l.map TokParts.tok).count e := by
        simp [List.count_cons, h]
      rw [h1, h2]
      simp only [List.length_cons]
      rw [ih]
      omega

/-- C5 (amended).  A record produced for token `t` of a row with `k`
placement tokens has its three response lists of equal length, and that
length is `k` minus the number of occurrences of `t`'s rendered string in
the row — which is `k - 1` exactly when the row's tokens are pairwise
distinct strings; a single-placement row yields empty response lists. -/
theorem simdata_resp_lengths_amended (seq_ind : Nat) (toks : List TokParts)
    (hwf : ∀ u ∈ toks, u.wf) (t : TokParts) (ht : t ∈ toks) :
    ∃ k r, decodeToken seq_ind (toks.map TokParts.tok) t.tok = some (k, r) ∧
      r.resp_start.length = r.resp_end.length ∧
      r.resp_names.length = r.resp_start.length ∧
      r.resp_start.length =
        (toks.map TokParts.tok).length - (toks.map TokParts.tok).count t.tok := by
  refine ⟨_, _, decodeToken_mkTok seq_ind toks hwf t ht, ?_, ?_, ?_⟩
  · simp [tokRecord]
  · simp [tokRecord]
  · simp only [tokRecord, List.length_map]
    rw [length_filter_ne_tok t.tok toks]

/-- Witness for C5 (amended) at the scenario C row: two distinct tokens, so
each record's response lists have length `2 - 1 = 1`. -/
theorem simdata_resp_lengths_amended_witness :
    ∃ k r, decodeToken 0
        ([TokParts.mk "10".data "TAL1".data "AAAA".data,
          TokParts.mk "30".data "GATA1".data "CCCC".data].map TokParts.tok)
        (TokParts.mk "10".data "TAL1".data "AAAA".data).tok = some (k, r) ∧
      r.resp_start.length = r.resp_end.length ∧
      r.resp_names.length = r.resp_start.length := by
  obtain ⟨k, r, h1, h2, h3, _⟩ := simdata_resp_lengths_amended 0
    [TokParts.mk "10".data "TAL1".data "AAAA".data,
     TokParts.mk "30".data "GATA1".data "CCCC".data]
    (by decide) (TokParts.mk "10".data "TAL1".data "AAAA".data) (by decide)
  exact ⟨k, r, h1, h2, h3⟩

/-- Counterexample to C5 as stated: a row with `k = 2` placement tokens that
are the same string.  The string-inequality filter `e != emb` removes both
copies, so the stored record has empty response lists: `0 ≠ k - 1`. -/
theorem simdata_resp_lengths_cex :
    (pySplit ',' "pos-10_TAL1-AAAA,pos-10_TAL1-AAAA".data).length = 2 ∧
    process_locations_from_simdata 1 [some "pos-10_TAL1-AAAA,pos-10_TAL1-AAAA"] =
      some [("seq_0_emb_pos-10_TAL1-AAAA",
             { seq := 0, mut_start := 10, mut_end := 14, mut_name := "TAL1",
               resp_start := [], resp_end := [], resp_names := [] })] ∧
    ¬ ((0 : Nat) = 2 - 1) := by decide

/-! ## Claim C10: one record per distinct token string -/

theorem mem_dictKeys_dictInsert (a k : String) (v : LocationRecord) :
    ∀ d : Dict, a ∈ dictKeys (dictInsert k v d) ↔ a ∈ dictKeys d ∨ a = k := by
  intro d
  induction d with
  | nil => simp [dictInsert, dictKeys]
  | cons kv rest ih =>
    obtain ⟨k1, v1⟩ := kv
    by_cases h : k1 = k
    · subst h
      have hins : dictInsert k1 v ((k1, v1) :: rest) = (k1, v) :: rest := by
        simp [dictInsert]
      rw [hins]
      simp only [dictKeys, List.map_cons, List.mem_cons]
      tauto
    · have hins : dictInsert k v ((k1, v1) :: rest) = (k1, v1) :: dictInsert k v rest := by
        simp [dictInsert, h]
      rw [hins]
      simp only [dictKeys, List.map_cons, List.mem_cons]
      rw [show List.map Prod.fst (dictInsert k v rest) = dictKeys (dictInsert k v rest)
        from rfl, ih]
      simp only [dictKeys]
      tauto

theorem dictKeys_nodup_dictInsert (k : String) (v : LocationRecord) :
    ∀ d : Dict, (dictKeys d).Nodup → (dictKeys (dictInsert k v d)).Nodup := by
  intro d
  induction d with
  | nil => intro _; simp [dictInsert, dictKeys]
  | cons kv rest ih =>
    obtain ⟨k1, v1⟩ := kv
    intro hnd
    simp only [dictKeys, List.map_cons, List.nodup_cons] at hnd
    by_cases h : k1 = k
    · subst h
      have hins : dictInsert k1 v ((k1, v1) :: rest) = (k1, v) :: rest := by
        simp [dictInsert]
      rw [hins]
      simp only [dictKeys, List.map_cons, List.nodup_cons]
      exact hnd
    · have hins : dictInsert k v ((k1, v1) :: rest) = (k1, v1) :: dictInsert k v rest := by
        simp [dictInsert, h]
      rw [hins]
      simp only [dictKeys, List.map_cons, List.nodup_cons]
      refine ⟨?_, ih hnd.2⟩
      intro hm
      rw [show List.map Prod.fst (dictInsert k v rest) = dictKeys (dictInsert k v rest)
        from rfl, mem_dictKeys_dictInsert] at hm
      rcases hm with hm | hm
      · exact hnd.1 (by simpa [dictKeys] using hm)
      · exact h hm

theorem mem_dictKeys_foldl (key : List Char → String) (R : List Char → LocationRecord) :
    ∀ (l : List (List Char)) (d : Dict) (a : String),
      a ∈ dictKeys (l.foldl (fun d1 e => dictInsert (key e) (R e) d1) d) ↔
        a ∈ dictKeys d ∨ ∃ x ∈ l, a = key x := by
  intro l
  induction l with
  | nil =>
    intro d a
    simp
  | cons b l ih =>
    intro d a
    rw [List.foldl_cons, ih, mem_dictKeys_dictInsert]
    simp only [List.mem_cons]
    constructor
    · rintro ((h | rfl) | ⟨x, hx, rfl⟩)
      · exact Or.inl h
      · exact Or.inr ⟨b, Or.inl rfl, rfl⟩
      · exact Or.inr ⟨x, Or.inr hx, rfl⟩
    · rintro (h | ⟨x, hx | hx, rfl⟩)
      · exact Or.inl (Or.inl h)
      · subst hx
        exact Or.inl (Or.inr rfl)
      · exact Or.inr ⟨x, hx, rfl⟩

theorem dictKeys_nodup_foldl (key : List Char → String) (R : List Char → LocationRecord) :
    ∀ (l : List (List Char)) (d : Dict), (dictKeys d).Nodup →
      (dictKeys (l.foldl (fun d1 e => dictInsert (key e) (R e) d1) d)).Nodup := by
  intro l
  induction l with
  | nil => intro d hd; exact hd
  | cons b l ih =>
    intro d hd
    rw [List.foldl_cons]
    exact ih _ (dictKeys_nodup_dictInsert _ _ _ hd)

theorem toFinset_map_eq {α β : Type} [DecidableEq α] [DecidableEq β]
    (f : α → β) (l : List α) : (l.map f).toFinset = l.toFinset.image f := by
  induction l with
  | nil => simp
  | cons a l ih => simp [ih]

/-- C10.  For a decoder row of well-formed tokens, the number of records the
row leaves in the dictionary equals the number of DISTINCT placement-token
strings, not the total token count: records are keyed
`seq_<row>_emb_<token>`, so equal tokens share a key and the later insert
overwrites the earlier; every key of the row's dictionary is of that form. -/
theorem simdata_distinct_tokens (seq_ind : Nat) (s : String) (toks : List TokParts)
    (hsplit : pySplit ',' s.data = toks.map TokParts.tok)
    (hwf : ∀ u ∈ toks, u.wf) :
    ∃ d, decodeRow seq_ind (some s) [] = some d ∧
      d.length = (toks.map TokParts.tok).toFinset.card ∧
      ∀ k ∈ dictKeys d, ∃ e ∈ toks.map TokParts.tok, k = tokKey seq_ind e := by
  have hrow : decodeRow seq_ind (some s) [] =
      (toks.map TokParts.tok).foldlM
        (fun d1 emb => (decodeToken seq_ind (toks.map TokParts.tok) emb).map
          (fun kv => dictInsert kv.1 kv.2 d1)) [] := by
    show (pySplit ',' s.data).foldlM
        (fun d1 emb => (decodeToken seq_ind (pySplit ',' s.data) emb).map
          (fun kv => dictInsert kv.1 kv.2 d1)) [] = _
    rw [hsplit]
  rw [hrow]
  have hstep : ∀ (d : Dict), ∀ e ∈ toks.map TokParts.tok,
      (decodeToken seq_ind (toks.map TokParts.tok) e).map
        (fun kv => dictInsert kv.1 kv.2 d) =
      some (dictInsert (tokKey seq_ind e)
        (((decodeToken seq_ind (toks.map TokParts.tok) e).map Prod.snd).getD
          ⟨0, 0, 0, "", [], [], []⟩) d) := by
    intro d e he
    obtain ⟨u, hu, rfl⟩ := List.mem_map.mp he
    rw [decodeToken_mkTok seq_ind toks hwf u hu]
    rfl
  rw [foldlM_option_eq_foldl _ _ (toks.map TokParts.tok) hstep []]
  refine ⟨_, rfl, ?_, ?_⟩
  · have hnd : (dictKeys ((toks.map TokParts.tok).foldl
        (fun d1 e => dictInsert (tokKey seq_ind e)
          (((decodeToken seq_ind (toks.map TokParts.tok) e).map Prod.snd).getD
            ⟨0, 0, 0, "", [], [], []⟩) d1) [])).Nodup :=
      dictKeys_nodup_foldl _ _ (toks.map TokParts.tok) [] (by simp [dictKeys])
    have hlen : ∀ d : Dict, d.length = (dictKeys d).length := by
      intro d
      simp [dictKeys]
    rw [hlen, ← List.toFinset_card_of_nodup hnd]
    have hset : (dictKeys ((toks.map TokParts.tok).foldl
        (fun d1 e => dictInsert (tokKey seq_ind e)
          (((decodeToken seq_ind (toks.map TokParts.tok) e).map Prod.snd).getD
            ⟨0, 0, 0, "", [], [], []⟩) d1) [])).toFinset =
        ((toks.map TokParts.tok).map (tokKey seq_ind)).toFinset := by
      apply Finset.ext
      intro a
      rw [List.mem_toFinset, List.mem_toFinset, mem_dictKeys_foldl]
      constructor
      · rintro (h | ⟨x, hx, rfl⟩)
        · simp [dictKeys] at h
        · exact List.mem_map_of_mem _ hx
      · intro h
        obtain ⟨x, hx, rfl⟩ := List.mem_map.mp h
        exact Or.inr ⟨x, hx, rfl⟩
    rw [hset, toFinset_map_eq, Finset.card_image_of_injective _
      (fun a b => tokKey_inj seq_ind a b)]
  · intro k hk
    rw [mem_dictKeys_foldl] at hk
    rcases hk with hk | ⟨x, hx, rfl⟩
    · simp [dictKeys] at hk
    · exact ⟨x, hx, rfl⟩

/-- Witness for C10: a row with two equal tokens leaves one record. -/
theorem simdata_distinct_tokens_witness :
    ∃ d, decodeRow 0 (some "pos-10_TAL1-AAAA,pos-10_TAL1-AAAA") [] = some d ∧
      d.length = ([TokParts.mk "10".data "TAL1".data "AAAA".data,
                   TokParts.mk "10".data "TAL1".data "AAAA".data].map
        TokParts.tok).toFinset.card := by
  obtain ⟨d, h1, h2, _⟩ := simdata_distinct_tokens 0
    "pos-10_TAL1-AAAA,pos-10_TAL1-AAAA"
    [TokParts.mk "10".data "TAL1".data "AAAA".data,
     TokParts.mk "10".data "TAL1".data "AAAA".data]
    (by decide) (by decide)
  exact ⟨d, h1, h2⟩

/-! ## Claim C6: structural invariants of all three producers -/

theorem forall₂_map_same {α β γ : Type} (R : β → γ → Prop) (f : α → β) (g : α → γ) :
    ∀ l : List α, (∀ x ∈ l, R (f x) (g x)) →
      List.Forall₂ R (l.map f) (l.map g) := by
  intro l
  induction l with
  | nil => intro _; exact List.Forall₂.nil
  | cons a l ih =>
    intro h
    exact List.Forall₂.cons (h a (List.mem_cons_self a l))
      (ih (fun x hx => h x (List.mem_cons_of_mem a hx)))

/-- The asymmetry of the padding split: the pre flank exceeds the post flank
by exactly the pad's parity bit when the feature size is odd, and never
otherwise. -/
theorem pre_sub_post (L m : Int) (h : 0 ≤ L - m) :
    pre_mut_flank L m - post_mut_flank L m =
      if m % 2 = 0 then 0 else (L - m) % 2 := by
  simp only [pre_mut_flank, post_mut_flank, truncHalf, ceilHalf, floorHalf]
  split_ifs <;> omega

/-- C6 (amended).  Every record of the three producers satisfies
`len(resp_start) == len(resp_end) == len(resp_names)`,
`mut_start ≤ mut_end` and `resp_start[i] ≤ resp_end[i]` — under the claim's
well-formedness conditions plus two the code forces: `flank_size ≥ 0` for
the two bed mappers, and, in the label-overlap mapper, a non-empty feature
(`feature_start < feature_end`) whenever the labels row's interval has odd
size and odd pad (otherwise `mut_start` exceeds `mut_end` by the parity
bit).  No bound on the window is required: coordinates may be negative or
exceed the window. -/
theorem location_record_invariants :
    (∀ (seq_ind : Nat) (toks : List TokParts), (∀ u ∈ toks, u.wf) →
      ∀ t ∈ toks, ∃ k r,
        decodeToken seq_ind (toks.map TokParts.tok) t.tok = some (k, r) ∧
        r.mut_start ≤ r.mut_end ∧
        List.Forall₂ (fun a b => a ≤ b) r.resp_start r.resp_end ∧
        r.resp_names.length = r.resp_start.length) ∧
    (∀ (seq_len flank_size : Int) (bed_ind : Nat) (chrom : String) (start «end» : Int),
      start < «end» → 0 ≤ flank_size →
      ∃ coords k r,
        processBedRow seq_len flank_size bed_ind chrom start «end» =
          (coords, (k, r)) ∧
        r.mut_start ≤ r.mut_end ∧
        List.Forall₂ (fun a b => a ≤ b) r.resp_start r.resp_end ∧
        r.resp_names.length = r.resp_start.length) ∧
    (∀ (seq_len flank_size : Int) (bed_ind : Nat) (lc : String) (ls le : Int)
        (extraA : List Cell) (bc : String) (bs be : Int) (extraB : List Cell),
      ls < le → le - ls ≤ seq_len → bs ≤ be → 0 ≤ flank_size →
      (bs < be ∨ (le - ls) % 2 = 0 ∨ (seq_len - (le - ls)) % 2 = 0) →
      ∃ coords k r,
        processIntersectRow seq_len flank_size (3 + extraA.length) bed_ind
          ((Cell.str lc :: Cell.int ls :: Cell.int le :: extraA) ++
           (Cell.str bc :: Cell.int bs :: Cell.int be :: extraB)) =
          some (coords, (k, r)) ∧
        r.mut_start ≤ r.mut_end ∧
        List.Forall₂ (fun a b => a ≤ b) r.resp_start r.resp_end ∧
        r.resp_names.length = r.resp_start.length) := by
  refine ⟨?_, ?_, ?_⟩
  · intro seq_ind toks hwf t ht
    refine ⟨_, _, decodeToken_mkTok seq_ind toks hwf t ht, ?_, ?_, ?_⟩
    · simp only [tokRecord]
      omega
    · simp only [tokRecord]
      apply forall₂_map_same
      intro u _
      omega
    · simp [tokRecord]
  · intro seq_len flank_size bed_ind chrom start «end» hse hf
    refine ⟨_, _, _, rfl, ?_, ?_, ?_⟩
    · show pre_mut_flank seq_len («end» - start) ≤
        pre_mut_flank seq_len («end» - start) + («end» - start)
      omega
    · refine List.Forall₂.cons ?_ List.Forall₂.nil
      show pre_mut_flank seq_len («end» - start) - flank_size ≤
        pre_mut_flank seq_len («end» - start) + («end» - start) + flank_size
      omega
    · rfl
  · intro seq_len flank_size bed_ind lc ls le extraA bc bs be extraB hle hpad hbe hf hcond
    have hpp := pre_sub_post seq_len (le - ls) (by omega)
    have hmut : bs - ls + pre_mut_flank seq_len (le - ls) ≤
        be - ls + post_mut_flank seq_len (le - ls) := by
      by_cases hm : (le - ls) % 2 = 0
      · rw [if_pos hm] at hpp
        omega
      · rw [if_neg hm] at hpp
        rcases hcond with h4 | h4 | h4 <;> omega
    refine ⟨_, _, _,
      processIntersectRow_shape seq_len flank_size bed_ind lc ls le extraA bc bs be extraB,
      hmut, ?_, ?_⟩
    · refine List.Forall₂.cons ?_ List.Forall₂.nil
      show bs - ls + pre_mut_flank seq_len (le - ls) - flank_size ≤
        be - ls + post_mut_flank seq_len (le - ls) + flank_size
      omega
    · rfl

/-- Witness for C6 (amended): one instance per producer. -/
theorem location_record_invariants_witness :
    (∃ k r, decodeToken 0
        ([TokParts.mk "10".data "TAL1".data "AAAA".data].map TokParts.tok)
        (TokParts.mk "10".data "TAL1".data "AAAA".data).tok = some (k, r) ∧
      r.mut_start ≤ r.mut_end) ∧
    (∃ coords k r, processBedRow 20 3 0 "chr1" 100 110 = (coords, (k, r)) ∧
      r.mut_start ≤ r.mut_end) ∧
    (∃ coords k r, processIntersectRow 20 15 3 0
        [Cell.str "chr1", Cell.int 0, Cell.int 5, Cell.str "chr1", Cell.int 2, Cell.int 4] =
        some (coords, (k, r)) ∧ r.mut_start ≤ r.mut_end) := by
  refine ⟨?_, ?_, ?_⟩
  · obtain ⟨k, r, h1, h2, _⟩ := location_record_invariants.1 0
      [TokParts.mk "10".data "TAL1".data "AAAA".data] (by decide)
      (TokParts.mk "10".data "TAL1".data "AAAA".data) (by decide)
    exact ⟨k, r, h1, h2⟩
  · obtain ⟨coords, k, r, h1, h2, _⟩ := location_record_invariants.2.1 20 3 0 "chr1"
      100 110 (by decide) (by decide)
    exact ⟨coords, k, r, h1, h2⟩
  · obtain ⟨coords, k, r, h1, h2, _⟩ := location_record_invariants.2.2 20 15 0 "chr1"
      0 5 [] "chr1" 2 4 [] (by decide) (by decide) (by decide) (by decide)
      (Or.inl (by decide))
    exact ⟨coords, k, r, h1, h2⟩

/-- Counterexample to C6 as stated: a joined row whose labels interval
`(0, 5)` has odd size and odd pad (window 20), with an empty bed feature
`(2, 2)` — well-formed by the claim's conditions (`start < end`,
`feature_start ≤ feature_end`) — yields `mut_start = 10 > 9 = mut_end`. -/
theorem location_record_invariants_cex :
    processIntersectRow 20 15 3 0
      [Cell.str "chr1", Cell.int 0, Cell.int 5,
       Cell.str "chr1", Cell.int 2, Cell.int 2] =
      some (("chr1", -8, 12),
        ("seq_0",
         { seq := 0, mut_start := 10, mut_end := 9, mut_name := "chr1:0-5",
           resp_start := [-5], resp_end := [24], resp_names := ["flank_15"] })) ∧
    (0 : Int) < 5 ∧ (2 : Int) ≤ 2 ∧ (0 : Int) ≤ 15 ∧ ¬ ((10 : Int) ≤ 9) := by
  decide

end Dfim
